import Mathlib

/-!
Verification of OpenAI-Realtime-API-Utils against its specification.

Shallow embedding of the Python sources:
- `src/openai_realtime_api_utils/audio_config.py` (format/paging resolver),
- `src/openai_realtime_api_utils/middlewares/audio_player.py` (page buffer, player),
- `src/openai_realtime_api_utils/conversation.py` (conversation group),
- `src/openai_realtime_api_utils/middlewares/track_conversation.py` (state engine),
- `src/openai_realtime_api_utils/middlewares/interrupt.py` (interruption coordinator).

Python machine ints are modelled as `ℤ`/`ℕ`, Python floats as `ℚ` (the values
involved are small decimal quantities; `round` is modelled as round-half-to-even,
matching Python 3), byte strings as `List ℕ`, and fallible code as
`Except PyError`.
-/

namespace RealtimeUtils

/-- A byte of a Python `bytes` object. Only value-level content matters here. -/
abbrev Byte := ℕ

/-- Exceptions raised by the modelled Python code. -/
inductive PyError where
  | underSpecified
  | overSpecified
  | valueError
  | assertionFailed
  | runtimeError
  | zeroDivision
  | keyError
deriving DecidableEq

deriving instance DecidableEq for Except

/-- `openai.types.realtime.realtime_audio_formats`: `AudioPCM(rate=...)`,
`AudioPCMA`, `AudioPCMU`. The PCM `rate` field is `Optional[int]`. -/
inductive AudioFormat where
  | pcm (rate : Option ℕ)
  | pcma
  | pcmu
deriving DecidableEq

/-- `N_CHANNELS = 1` (both `audio_config.py` and `audio_player.py`). -/
def N_CHANNELS : ℕ := 1

/-- `FormatInfo.sample_rate`. The PCM arm is a class pattern
(`case AudioPCM(rate=rate): return rate or 24000`; `rate or 24000` maps both
`None` and `0` to 24000). The PCMA/PCMU arms are written as unparenthesized
value patterns (`case realtime_audio_formats.AudioPCMA:`), which compare the
instance against the class object and never match an instance, so those
formats fall through to `case _` and raise `ValueError`. -/
def sampleRate : AudioFormat → Except PyError ℕ
  | .pcm r =>
    .ok (match r with
         | some (n + 1) => n + 1
         | _ => 24000)
  | _ => .error .valueError

/-- `FormatInfo.n_bytes_per_sample` (parenthesized class patterns; total). -/
def nBytesPerSample : AudioFormat → ℕ
  | .pcm _ => 2
  | .pcma => 1
  | .pcmu => 1

/-- `FormatInfo.silence_sample`: two zero bytes for PCM, `ValueError` for
every other format. -/
def silenceSample : AudioFormat → Except PyError (List Byte)
  | .pcm _ => .ok [0, 0]
  | _ => .error .valueError

/-- `audio_player.FormatInfo`: a frozen dataclass of the format together with
the page size in samples. -/
structure FormatInfo where
  format : AudioFormat
  n_samples_per_page : ℕ
deriving DecidableEq

/-- `FormatInfo.n_bytes_per_page = N_CHANNELS * n_bytes_per_sample * n_samples_per_page`. -/
def FormatInfo.nBytesPerPage (fi : FormatInfo) : ℕ :=
  N_CHANNELS * nBytesPerSample fi.format * fi.n_samples_per_page

/-- `FormatInfo.silence_page = silence_sample * n_samples_per_page`
(Python `bytes` repetition). -/
def FormatInfo.silencePage (fi : FormatInfo) : Except PyError (List Byte) := do
  let s ← silenceSample fi.format
  .ok (List.flatten (List.replicate fi.n_samples_per_page s))

/-- `audio_player.Buffer`: a deque of pages plus an optional short tail. -/
structure Buffer where
  dq : List (List Byte)
  tail : Option (List Byte)
deriving DecidableEq

/-- The freshly constructed buffer (`Buffer.__init__`). -/
def Buffer.empty : Buffer := ⟨[], none⟩

/-- `Buffer.pop`: pop a page from the deque (with `n_content_bytes` reported
as `n_bytes_per_page`); on an empty deque, either return a silence page with
count 0, or the tail padded with silence (`tail + silence_page[len(tail):]`)
with count `len(tail)`, clearing the tail. Both deque-empty branches evaluate
`silence_page`, which raises `ValueError` for non-PCM formats. -/
def Buffer.pop (fi : FormatInfo) (b : Buffer) :
    Except PyError ((List Byte × ℕ) × Buffer) :=
  match b.dq with
  | page :: rest => .ok ((page, fi.nBytesPerPage), ⟨rest, b.tail⟩)
  | [] =>
    match b.tail with
    | none => do
      let sp ← fi.silencePage
      .ok ((sp, 0), ⟨[], none⟩)
    | some t => do
      let sp ← fi.silencePage
      .ok ((t ++ sp.drop t.length, t.length), ⟨[], none⟩)

/-- The `while len(mv):` loop of `Buffer.append`, with fuel bounding the
number of iterations. Each iteration splits a segment of `p` bytes off the
front; a full segment is appended to the deque, a short one becomes the tail
and the loop stops. `mv.length` iterations always suffice because every
iteration removes `p ≥ 1` bytes; with `p = 0` the Python loop does not
terminate, and the fuel-exhausted value is never relied upon. -/
def appendLoopAux (p : ℕ) : ℕ → List (List Byte) → List Byte →
    List (List Byte) × Option (List Byte)
  | _, dq, [] => (dq, none)
  | 0, dq, mv => (dq, some mv)
  | fuel + 1, dq, mv =>
    if (mv.take p).length = p then
      appendLoopAux p fuel (dq ++ [mv.take p]) (mv.drop p)
    else (dq, some mv)

/-- The page-splitting loop of `Buffer.append` on the remaining view `mv`. -/
def appendLoop (p : ℕ) (dq : List (List Byte)) (mv : List Byte) :
    List (List Byte) × Option (List Byte) :=
  appendLoopAux p mv.length dq mv

/-- `Buffer.append`: first complete the tail if one exists
(`tail += mv[:tail_short_by]`; if still short, stop; otherwise promote the
completed tail to the deque), then split the rest into pages. -/
def Buffer.append (fi : FormatInfo) (b : Buffer) (data : List Byte) : Buffer :=
  let p := fi.nBytesPerPage
  match b.tail with
  | none =>
    let r := appendLoop p b.dq data
    ⟨r.1, r.2⟩
  | some t =>
    let tail_short_by := p - t.length
    let t2 := t ++ data.take tail_short_by
    if t2.length < p then ⟨b.dq, some t2⟩
    else
      let r := appendLoop p (b.dq ++ [t2]) (data.drop tail_short_by)
      ⟨r.1, r.2⟩

/-- `Buffer.is_empty`. -/
def Buffer.isEmptyB (b : Buffer) : Bool :=
  b.dq.isEmpty && b.tail.isNone

/-- The documented state invariant of `Buffer`: every deque page has length
exactly `n_bytes_per_page`, and the tail, when present, is strictly shorter. -/
def Buffer.WF (fi : FormatInfo) (b : Buffer) : Prop :=
  (∀ pg ∈ b.dq, pg.length = fi.nBytesPerPage) ∧
  (match b.tail with
   | none => True
   | some t => t.length < fi.nBytesPerPage)

/-- The byte stream currently held by a buffer, in FIFO order. -/
def Buffer.contents (b : Buffer) : List Byte :=
  b.dq.flatten ++ (b.tail.getD [])

/-- One interleaved operation on a `Buffer`. -/
inductive BufOp where
  | app (data : List Byte)
  | pop
deriving DecidableEq

/-- Run a sequence of `append`/`pop` calls, collecting each pop's
`(page, n_content_bytes)` result. An exception aborts the run. -/
def runBuffer (fi : FormatInfo) : Buffer → List BufOp →
    Except PyError (Buffer × List (List Byte × ℕ))
  | b, [] => .ok (b, [])
  | b, .app d :: rest => runBuffer fi (b.append fi d) rest
  | b, .pop :: rest => do
    let r ← b.pop fi
    let s ← runBuffer fi r.2 rest
    .ok (s.1, r.1 :: s.2)

/-- The concatenation of all bytes appended by a trace. -/
def appendedBytes (ops : List BufOp) : List Byte :=
  (ops.filterMap fun op =>
    match op with
    | .app d => some d
    | .pop => none).flatten

/-- The concatenation of the full pages returned by the pops of a run. -/
def poppedPages (outs : List (List Byte × ℕ)) : List Byte :=
  (outs.map Prod.fst).flatten

/-- The concatenation of the content portions of the popped pages: each page
truncated to its reported `n_content_bytes`. -/
def poppedContent (outs : List (List Byte × ℕ)) : List Byte :=
  (outs.map fun pc => pc.1.take pc.2).flatten

/-! ### audio_config.py -/

/-- Python 3 `round` on a rational: round half to even (banker's rounding). -/
def pyRound (x : ℚ) : ℤ :=
  let f := ⌊x⌋
  let frac := x - f
  if frac < 1 / 2 then f
  else if 1 / 2 < frac then f + 1
  else if f % 2 = 0 then f else f + 1

/-- Python float division: raises `ZeroDivisionError` on a zero denominator. -/
def pydiv (a b : ℚ) : Except PyError ℚ :=
  if b = 0 then .error .zeroDivision else .ok (a / b)

/-- Python slice `l[:k]` for an integer `k` (negative `k` counts from the end). -/
def pySliceTo {α : Type} (l : List α) (k : ℤ) : List α :=
  if 0 ≤ k then l.take k.toNat else l.take (l.length - (-k).toNat)

/-- `ConfigSpecification.page_latency_ms` when not `None`: either a single
target latency (`float | int`) or a `(min_ms, max_ms)` window. -/
inductive PageLatency where
  | single (ms : ℚ)
  | window (lo hi : ℚ)
deriving DecidableEq

/-- `audio_config.ConfigSpecification` (frozen dataclass). -/
structure ConfigSpecification where
  format : Option AudioFormat
  n_samples_per_page : Option ℤ
  page_latency_ms : Option PageLatency
deriving DecidableEq

/-- `ConfigSpecification.__post_init__`: `UnderSpecified` when neither page
size nor latency is given; `OverSpecified` when an explicit sample count is
combined with a single-number latency. -/
def ConfigSpecification.postInit (spec : ConfigSpecification) : Except PyError Unit :=
  if spec.n_samples_per_page = none ∧ spec.page_latency_ms = none then
    .error .underSpecified
  else
    match spec.n_samples_per_page, spec.page_latency_ms with
    | some _, some (.single _) => .error .overSpecified
    | _, _ => .ok ()

/-- `audio_config.ConfigInfo`: the resolved format (`audio_config.FormatInfo`
wraps exactly the format) plus the resolved sample count. -/
structure ConfigInfo where
  format_info : AudioFormat
  n_samples_per_page : ℤ
deriving DecidableEq

/-- `ConfigInfo.ms_per_page = n_samples_per_page / sample_rate * 1000`. -/
def ConfigInfo.msPerPage (ci : ConfigInfo) : Except PyError ℚ := do
  let r ← sampleRate ci.format_info
  .ok ((ci.n_samples_per_page : ℚ) / (r : ℚ) * 1000)

/-- `ConfigSpecification.resolve`. With an explicit sample count, a latency
window is checked by assertion (`assert min_ <= info.ms_per_page <= max_`)
and a single latency is unreachable (`__post_init__` forbids it). Without a
sample count, the target latency is the window midpoint (or the single
value), and the count is `round(target_ms / 1000 * sample_rate)` — this
branch performs no window-containment assertion. -/
def ConfigSpecification.resolve (spec : ConfigSpecification)
    (server_proposed : Option AudioFormat) : Except PyError ConfigInfo :=
  match spec.format.orElse fun _ => server_proposed with
  | none => .error .underSpecified
  | some format =>
    match spec.n_samples_per_page with
    | some n =>
      let info : ConfigInfo := ⟨format, n⟩
      match spec.page_latency_ms with
      | some (.window lo hi) =>
        (do
          let ms ← info.msPerPage
          if lo ≤ ms ∧ ms ≤ hi then .ok info else .error .assertionFailed)
      | none => .ok info
      | some (.single _) => .error .runtimeError
    | none =>
      (do
        let target_ms ←
          (match spec.page_latency_ms with
           | some (.window lo hi) => .ok ((lo + hi) / 2)
           | some (.single ms) => .ok ms
           | none => .error .runtimeError : Except PyError ℚ)
        let r ← sampleRate format
        .ok ⟨format, pyRound (target_ms / 1000 * (r : ℚ))⟩)

/-! ### conversation.py -/

/-- `shared.L.root`. -/
def ROOT : String := "root"

/-- `shared.is_root`. -/
def isRoot : Option String → Bool
  | none => true
  | some s => s == ROOT

/-- `ConversationGroup.Cell`. The `audio_total_bytes` running counter and the
`truncated_transcript` slot live on the cell in the middleware sources
(`track_conversation.py`, `interrupt.py`); they are carried in the
interruption environment below and are not needed on this record. -/
structure Cell where
  item_id : String
  response_id : Option String := none
  audio_truncate : Option (ℤ × ℤ) := none
  touched_by_event_ids : List (Option String) := []
deriving DecidableEq

/-- Association-list model of a Python `dict[str, α]` (insertion-ordered). -/
def lookupS {α : Type} (l : List (String × α)) (k : String) : Option α :=
  (l.find? fun kv => kv.1 == k).map Prod.snd

/-- `d[k] = v` for a key already present: overwrite in place. -/
def setS {α : Type} (l : List (String × α)) (k : String) (v : α) :
    List (String × α) :=
  l.map fun kv => if kv.1 == k then (k, v) else kv

/-- `d[k] = v`: overwrite when present, append when fresh. -/
def insertS {α : Type} (l : List (String × α)) (k : String) (v : α) :
    List (String × α) :=
  if (lookupS l k).isSome then setS l k v else l ++ [(k, v)]

/-- `d.pop(k)`: the value and the remaining dict, or `none` for `KeyError`. -/
def popS {α : Type} (l : List (String × α)) (k : String) :
    Option (α × List (String × α)) :=
  match lookupS l k with
  | none => none
  | some v => some (v, l.filter fun kv => ¬(kv.1 == k))

/-- `conversation.ConversationGroup`: ordered main sequence with a side
membership set, a trash list and an out-of-band map. -/
structure ConversationGroup where
  main_conversation : List Cell
  main_conversation_item_ids : Finset String
  main_conversation_id : Option String := none
  trashed_cells : List Cell
  out_of_band_cells : List (String × Cell)
deriving DecidableEq

/-- `ConversationGroup.__init__`. -/
def ConversationGroup.init : ConversationGroup := ⟨[], ∅, none, [], []⟩

/-- `ConversationGroup.seek`: the unique index of `item_id` in the main
sequence; the singleton unpacking raises `ValueError` otherwise. -/
def ConversationGroup.seek (g : ConversationGroup) (item_id : String) :
    Except PyError ℕ :=
  match (g.main_conversation.enum.filter fun ic => ic.2.item_id == item_id).map
      Prod.fst with
  | [i] => .ok i
  | _ => .error .valueError

/-- `ConversationGroup.index_after`. -/
def ConversationGroup.indexAfter (g : ConversationGroup)
    (previous_item_id : Option String) : Except PyError ℕ :=
  if isRoot previous_item_id then .ok 0
  else
    match previous_item_id with
    | none => .error .assertionFailed
    | some pid => do
      let i ← g.seek pid
      .ok (i + 1)

/-- `ConversationGroup.main_conversation_contains`. -/
def ConversationGroup.mainConversationContains (g : ConversationGroup)
    (item_id : String) : Bool :=
  decide (item_id ∈ g.main_conversation_item_ids)

/-- `ConversationGroup.insert_after`. The Python body asserts the id is not
`root`, not among the out-of-band cells and not in the membership set, then
inserts the cell after `previous_item_id` and registers the id. -/
def ConversationGroup.insertAfter (g : ConversationGroup) (cell : Cell)
    (previous_item_id : Option String) : Except PyError ConversationGroup :=
  if cell.item_id = ROOT then .error .assertionFailed
  else if (g.out_of_band_cells.filter fun kv => kv.2.item_id == cell.item_id)
      ≠ [] then .error .assertionFailed
  else do
    let i ← g.indexAfter previous_item_id
    if cell.item_id ∈ g.main_conversation_item_ids then .error .assertionFailed
    else
      .ok { g with
        main_conversation := g.main_conversation.insertIdx i cell,
        main_conversation_item_ids :=
          insert cell.item_id g.main_conversation_item_ids }

/-- `ConversationGroup.move`: pop at `seek item_id`, then insert at
`index_after previous_item_id` computed on the shortened list. -/
def ConversationGroup.move (g : ConversationGroup) (item_id : String)
    (previous_item_id : Option String) : Except PyError ConversationGroup := do
  let i ← g.seek item_id
  match g.main_conversation[i]? with
  | none => .error .runtimeError
  | some cell => do
    let g1 := { g with main_conversation := g.main_conversation.eraseIdx i }
    let j ← g1.indexAfter previous_item_id
    .ok { g1 with main_conversation := g1.main_conversation.insertIdx j cell }

/-- `ConversationGroup.trash`: move the sought cell to the trash list and
remove its id from the membership set (`set.remove` raises on a missing id). -/
def ConversationGroup.trash (g : ConversationGroup) (item_id : String) :
    Except PyError ConversationGroup := do
  let i ← g.seek item_id
  match g.main_conversation[i]? with
  | none => .error .runtimeError
  | some cell =>
    if item_id ∈ g.main_conversation_item_ids then
      .ok { g with
        main_conversation := g.main_conversation.eraseIdx i,
        main_conversation_item_ids :=
          g.main_conversation_item_ids.erase item_id,
        trashed_cells := g.trashed_cells ++ [cell] }
    else .error .keyError

/-- `ConversationGroup.touch` via `get_cell_from_id`: append the event id to
the touch list of the cell, found in the main sequence first and in the
out-of-band map second (`KeyError` when absent from both). -/
def ConversationGroup.touch (g : ConversationGroup) (item_id : String)
    (event_id : Option String) : Except PyError ConversationGroup :=
  if g.mainConversationContains item_id then do
    let i ← g.seek item_id
    match g.main_conversation[i]? with
    | none => .error .runtimeError
    | some cell =>
      .ok { g with
        main_conversation := g.main_conversation.set i
          { cell with
            touched_by_event_ids := cell.touched_by_event_ids ++ [event_id] } }
  else
    match lookupS g.out_of_band_cells item_id with
    | none => .error .keyError
    | some cell =>
      .ok { g with
        out_of_band_cells := setS g.out_of_band_cells item_id
          { cell with
            touched_by_event_ids := cell.touched_by_event_ids ++ [event_id] } }

/-- `ConversationGroup.last_item_id`. -/
def ConversationGroup.lastItemId (g : ConversationGroup) : String :=
  match g.main_conversation.getLast? with
  | none => ROOT
  | some c => c.item_id

/-- `ConversationGroup.safe_add_oob`. -/
def ConversationGroup.safeAddOob (g : ConversationGroup) (cell : Cell) :
    Except PyError ConversationGroup :=
  if g.mainConversationContains cell.item_id then .error .assertionFailed
  else if (lookupS g.out_of_band_cells cell.item_id).isSome then
    .error .assertionFailed
  else
    .ok { g with
      out_of_band_cells := g.out_of_band_cells ++ [(cell.item_id, cell)] }

/-- One container operation of claim C3. -/
inductive GroupOp where
  | insertAfterOp (cell : Cell) (previous_item_id : Option String)
  | moveOp (item_id : String) (previous_item_id : Option String)
  | trashOp (item_id : String)
  | safeAddOobOp (cell : Cell)
deriving DecidableEq

/-- Apply one container operation. -/
def applyGroupOp (g : ConversationGroup) : GroupOp → Except PyError ConversationGroup
  | .insertAfterOp c prev => g.insertAfter c prev
  | .moveOp i prev => g.move i prev
  | .trashOp i => g.trash i
  | .safeAddOobOp c => g.safeAddOob c

/-- Run a sequence of container operations; an exception aborts the run. -/
def runGroup : ConversationGroup → List GroupOp → Except PyError ConversationGroup
  | g, [] => .ok g
  | g, op :: rest => do
    let g' ← applyGroupOp g op
    runGroup g' rest

/-- The item ids of the main sequence, in order. -/
def mainIds (g : ConversationGroup) : List String :=
  g.main_conversation.map Cell.item_id

/-- The item ids held by the out-of-band map. -/
def oobIds (g : ConversationGroup) : List String :=
  g.out_of_band_cells.map fun kv => kv.2.item_id

/-- The item ids of the trashed cells. -/
def trashIds (g : ConversationGroup) : List String :=
  g.trashed_cells.map Cell.item_id

/-- Pairwise disjointness of the three containers, as claimed by C3. -/
def containersDisjoint (g : ConversationGroup) : Prop :=
  (∀ s ∈ mainIds g, s ∉ oobIds g ∧ s ∉ trashIds g) ∧
  (∀ s ∈ oobIds g, s ∉ trashIds g)

/-- The operation sequence of the C3 counterexample: insert an item, trash
it, then insert a new cell with the same id. -/
def trashCexOps : List GroupOp :=
  [.insertAfterOp { item_id := "a" } none, .trashOp "a",
   .insertAfterOp { item_id := "a" } none]

/-- The state those operations reach. -/
def trashCexGroup : ConversationGroup :=
  { main_conversation := [{ item_id := "a" }],
    main_conversation_item_ids := {"a"},
    main_conversation_id := none,
    trashed_cells := [{ item_id := "a" }],
    out_of_band_cells := [] }

/-- The inductive invariant of reachable `ConversationGroup` states: the main
sequence has no duplicate ids, the membership index is exactly the set of
main-sequence ids, out-of-band keys agree with their cells, and main and
out-of-band ids are disjoint. (Disjointness with the trash is *not* part of
this invariant; see the C3 counterexample.) -/
structure GroupWF (g : ConversationGroup) : Prop where
  nodupMain : (mainIds g).Nodup
  idx : g.main_conversation_item_ids = (mainIds g).toFinset
  oobKeys : ∀ kv ∈ g.out_of_band_cells, kv.1 = kv.2.item_id
  mainOobDisjoint : ∀ s ∈ mainIds g, s ∉ oobIds g

/-! ### track_conversation.py (state engine) -/

/-- A conversation item: its optional `id`, its `status` field, and `core`
standing for every remaining field. Python `==` on items is componentwise. -/
structure Item where
  id : Option String
  status : Option String
  core : String
deriving DecidableEq

/-- An outbound `conversation.item.create` event param. `previous_item_id =
none` models the key being absent from the param dict. -/
structure CreateEvent where
  event_id : Option String
  item : Item
  previous_item_id : Option String
deriving DecidableEq

/-- A server `conversation.item.added` event. -/
structure AddedEvent where
  event_id : String
  item : Item
  previous_item_id : Option String
deriving DecidableEq

/-- The `TrackConversation` state relevant to insertion reconciliation. -/
structure TrackState where
  group : ConversationGroup
  all_items : List (String × Item)
  pending_local : Finset String
  pending_response : List (String × String)
deriving DecidableEq

/-- `TrackConversation.client_event_handler`, `conversation.item.create` arm,
followed by `Impatience.handle` on the rewritten param: fill in a missing (or
empty, via Python `or`) item id with the generated `client-set-<uuid>` id,
default a missing `previous_item_id` to `last_item_id()`, insert the cell
speculatively, record it as locally pending, and return the rewritten event. -/
def resolvedItemId (ev : CreateEvent) (generated_id : String) : String :=
  match ev.item.id with
  | some s => if s = "" then generated_id else s
  | none => generated_id

def resolvedPrev (ev : CreateEvent) (g : ConversationGroup) : String :=
  ev.previous_item_id.getD g.lastItemId

/-- The main-sequence position denoted by a server `previous_item_id` over a
given id list: the head for root, the slot after the named id otherwise
(mirrors `ConversationGroup.index_after` at the id level). -/
def serverPosition (ids : List String) (q : Option String) : ℕ :=
  if isRoot q then 0
  else
    match q with
    | none => 0
    | some qid => ids.indexOf qid + 1

def clientHandleCreate (st : TrackState) (ev : CreateEvent)
    (generated_id : String) : Except PyError (TrackState × CreateEvent) :=
  let item_id := resolvedItemId ev generated_id
  let previous_item_id := resolvedPrev ev st.group
  let e_p : CreateEvent :=
    { ev with
      item := { ev.item with id := some item_id },
      previous_item_id := some previous_item_id }
  if item_id ∈ st.pending_local then .error .assertionFailed
  else if (lookupS st.all_items item_id).isSome then .error .assertionFailed
  else do
    let g1 ← st.group.insertAfter { item_id := item_id } previous_item_id
    let g2 ← g1.touch item_id ev.event_id
    .ok ({ st with
           group := g2,
           all_items := insertS st.all_items item_id e_p.item,
           pending_local := insert item_id st.pending_local },
         e_p)

/-- `Impatience.handle`, `ConversationItemAdded` arm: claim the id from the
locally-pending set and/or the response-pending map (claiming both is a
protocol error); for a locally-pending id, copy the server `status` onto the
stored item, require equality with the server item (else `AssertionError`),
move the cell to the server position and touch it; for a response-pending id,
require equality and insert a fresh cell; otherwise insert normally. -/
def handleAdded (st : TrackState) (ev : AddedEvent) : Except PyError TrackState :=
  match ev.item.id with
  | none => .error .assertionFailed
  | some item_id =>
    let is_locally_synced := item_id ∈ st.pending_local
    let pending_local' := st.pending_local.erase item_id
    match popS st.pending_response item_id with
    | some _ =>
      if is_locally_synced then .error .assertionFailed
      else
        match popS st.pending_response item_id with
        | none => .error .runtimeError
        | some (response_id, pending_response') =>
          match lookupS st.all_items item_id with
          | none => .error .assertionFailed
          | some dangling =>
            if dangling = ev.item then do
              let g1 ← st.group.insertAfter
                { item_id := item_id, response_id := some response_id }
                ev.previous_item_id
              let g2 ← g1.touch item_id (some ev.event_id)
              .ok { st with
                    group := g2,
                    pending_local := pending_local',
                    pending_response := pending_response' }
            else .error .assertionFailed
    | none =>
      if is_locally_synced then
        match lookupS st.all_items item_id with
        | none => .error .assertionFailed
        | some old_item =>
          let old_item' := { old_item with status := ev.item.status }
          if old_item' = ev.item then do
            let g1 ← st.group.move item_id ev.previous_item_id
            let g2 ← g1.touch item_id (some ev.event_id)
            .ok { st with
                  group := g2,
                  all_items := setS st.all_items item_id old_item',
                  pending_local := pending_local' }
          else .error .assertionFailed
      else
        if (lookupS st.all_items item_id).isSome then .error .assertionFailed
        else do
          let g1 ← st.group.insertAfter { item_id := item_id }
            ev.previous_item_id
          let g2 ← g1.touch item_id (some ev.event_id)
          .ok { st with
                group := g2,
                all_items := insertS st.all_items item_id ev.item }

/-! ### interrupt.py -/

/-- The `Interrupt` middleware state used by the claims. -/
structure InterruptState where
  is_user_talking : Bool
  already_interrupted : Finset String
deriving DecidableEq

/-- The arguments of one spawned `_interrupt` task (also used as the shape of
one `_start_interrupt` trigger). -/
structure TaskSpec where
  item_id : String
  content_index : ℤ
  elapsed_ms : ℚ
deriving DecidableEq

/-- `Interrupt._start_interrupt`: a no-op when the item is already in
`already_interrupted`; otherwise mark it and spawn the `_interrupt` task. -/
def startInterrupt (st : InterruptState) (current_item_id : String)
    (current_item_content_index : ℤ) (elapsed_ms : ℚ) :
    InterruptState × Option TaskSpec :=
  if current_item_id ∈ st.already_interrupted then (st, none)
  else
    let st' := { st with
      already_interrupted := insert current_item_id st.already_interrupted }
    (st', some ⟨current_item_id, current_item_content_index, elapsed_ms⟩)

/-- Run a sequence of `_start_interrupt` triggers, collecting spawned tasks. -/
def runTriggers : InterruptState → List TaskSpec → InterruptState × List TaskSpec
  | st, [] => (st, [])
  | st, t :: rest =>
    let r := startInterrupt st t.item_id t.content_index t.elapsed_ms
    let s := runTriggers r.1 rest
    (s.1, r.2.toList ++ s.2)

/-- The behavior of one `send_with_handlers` call: it either completes or
raises `websockets.ConnectionClosedOK`. -/
inductive SendOutcome where
  | sendOk
  | closedOk
deriving DecidableEq

/-- The outbound events `_interrupt` emits. -/
inductive OutEvent where
  | responseCancel
  | itemTruncate (item_id : String) (content_index : ℤ) (audio_end_ms : ℤ)
deriving DecidableEq

/-- The `try: ... except ConnectionClosedOK: pass` block around the two
sends: events are sent in order until a send raises the normal-close
exception, which stops the remaining sends and is swallowed. Outcomes beyond
the given list default to success. -/
def sendAll : List SendOutcome → List OutEvent → List OutEvent
  | _, [] => []
  | [], e :: rest => e :: sendAll [] rest
  | .sendOk :: os, e :: rest => e :: sendAll os rest
  | .closedOk :: _, _ :: _ => []

/-- The data `_interrupt` reads from its collaborators: the interrupted
cell's `audio_total_bytes` running counter (on the cell in
`conversation_group.py` / maintained by `track_conversation.py`), the last
known output format from `TrackConfig`, and the transcript of the addressed
assistant content part. -/
structure InterruptEnv where
  cell_audio_total_bytes : ℕ
  audio_format_output : Option AudioFormat
  transcript : Option (List Char)
deriving DecidableEq

/-- What `_interrupt` did: the truncate mark written to the cell, the
proportional transcript slice, and the events actually sent. -/
structure InterruptResult where
  audio_truncate : ℤ × ℤ
  truncated_transcript : Option (List Char)
  sent : List OutEvent
deriving DecidableEq

/-- `Interrupt._interrupt`: mark the cell's truncation, compute
`speech_total_ms = audio_total_bytes * ms_per_byte` from the last known
output format, compute `progress_ratio = elapsed_ms / speech_total_ms`
(Python float division: `ZeroDivisionError` on a zero total), slice the
transcript proportionally, then send `response.cancel` followed by
`conversation.item.truncate`, swallowing a normal connection close. The
`on_interrupt` and playback-tracker hooks are external effects. -/
def interruptProc (env : InterruptEnv) (outcomes : List SendOutcome)
    (current_item_id : String) (current_item_content_index : ℤ)
    (elapsed_ms : ℚ) : Except PyError InterruptResult := do
  let truncate := (current_item_content_index, pyRound elapsed_ms)
  let fmt ←
    (match env.audio_format_output with
     | none => .error .assertionFailed
     | some f => .ok f : Except PyError AudioFormat)
  let r ← sampleRate fmt
  let ms_per_byte := 1000 / ((r : ℚ) * (N_CHANNELS : ℚ) * (nBytesPerSample fmt : ℚ))
  let speech_total_ms := (env.cell_audio_total_bytes : ℚ) * ms_per_byte
  let progress_fraction ← pydiv elapsed_ms speech_total_ms
  let truncated_transcript := env.transcript.map fun tr =>
    pySliceTo tr (pyRound ((tr.length : ℚ) * progress_fraction))
  .ok { audio_truncate := truncate,
        truncated_transcript := truncated_transcript,
        sent := sendAll outcomes
          [.responseCancel,
           .itemTruncate current_item_id current_item_content_index
             (pyRound elapsed_ms)] }

/-- The per-event metadata map, restricted to the two keys the claims use:
the handler roster and the `is_during_user_speech` suppression flag. -/
structure Metadata where
  handler_roster : List String
  is_during_user_speech : Bool
deriving DecidableEq

/-- `metadata.get(key, False)` for the modelled metadata: only the
suppression flag is a boolean key; `metadata.get(None, False)` is `False`. -/
def metadataGet (md : Metadata) (key : Option String) : Bool :=
  match key with
  | some s => if s = "is_during_user_speech" then md.is_during_user_speech else false
  | none => false

/-- `RealtimePlaybackTracker.get_state()`. -/
structure PlaybackState where
  current_item_id : Option String
  current_item_content_index : Option ℤ
  elapsed_ms : Option ℚ
deriving DecidableEq

/-- A `response.audio.delta` server event, with the payload already decoded. -/
structure DeltaEvent where
  item_id : String
  content_index : ℤ
  delta : List Byte
deriving DecidableEq

/-- `Interrupt.server_event_handler`, `ResponseAudioDeltaEvent` arm: when the
user is talking, read the playback state (`elapsed` is 0 unless the playing
item is this one), assert `elapsed == 0.0`, start an interrupt for the new
content, set the suppression flag in the metadata, and forward the event. -/
def interruptHandleDelta (st : InterruptState) (pb : PlaybackState)
    (ev : DeltaEvent) (md : Metadata) :
    Except PyError (InterruptState × Option TaskSpec × Option DeltaEvent × Metadata) :=
  if st.is_user_talking then
    let elapsed := if pb.current_item_id = some ev.item_id then pb.elapsed_ms.getD 0 else 0
    if elapsed = 0 then
      let r := startInterrupt st ev.item_id ev.content_index elapsed
      .ok (r.1, r.2, some ev, { md with is_during_user_speech := true })
    else .error .assertionFailed
  else .ok (st, none, some ev, md)

/-- `audio_player.Speech`. -/
structure Speech where
  item_id : String
  content_index : ℤ
  buffer : Buffer
  has_more_to_come : Bool := true
deriving DecidableEq

/-- `AudioPlayer.server_event_handler`, `ResponseAudioDeltaEvent` arm: unless
the metadata carries the configured suppression keyword, find the addressed
speech (`KeyError` when absent) and append the decoded bytes to its buffer. -/
def playerHandleDelta (fi : FormatInfo) (skip_delta_metadata_keyword : Option String)
    (speeches : List Speech) (ev : DeltaEvent) (md : Metadata) :
    Except PyError (List Speech) :=
  if metadataGet md skip_delta_metadata_keyword then .ok speeches
  else
    match speeches.findIdx? fun s =>
        s.item_id == ev.item_id && s.content_index == ev.content_index with
    | none => .error .keyError
    | some i =>
      match speeches[i]? with
      | none => .error .runtimeError
      | some sp =>
        .ok (speeches.set i { sp with buffer := sp.buffer.append fi ev.delta })

/-- Concrete example inputs for the reconciliation development: an initial
tracking state and an outbound `conversation.item.create` param with no item
id and no `previous_item_id`. -/
def c2St : TrackState := ⟨.init, [], ∅, []⟩

def c2Ev : CreateEvent := ⟨some "e1", ⟨none, none, "hello"⟩, none⟩

/-! ## Theorems -/

@[simp]
theorem ok_bind {ε α β : Type} (a : α) (f : α → Except ε β) :
    (Except.ok a : Except ε α) >>= f = f a := rfl

@[simp]
theorem error_bind {ε α β : Type} (e : ε) (f : α → Except ε β) :
    (Except.error e : Except ε α) >>= f = .error e := rfl

theorem pyRound_sub_le (x : ℚ) : |(pyRound x : ℚ) - x| ≤ 1 / 2 := by
  have hfl : (⌊x⌋ : ℚ) ≤ x := Int.floor_le x
  have hfu : x < (⌊x⌋ : ℚ) + 1 := Int.lt_floor_add_one x
  unfold pyRound
  by_cases h1 : x - (⌊x⌋ : ℚ) < 1 / 2
  · simp only [if_pos h1]
    rw [abs_le]
    constructor <;> linarith
  · simp only [if_neg h1]
    by_cases h2 : 1 / 2 < x - (⌊x⌋ : ℚ)
    · simp only [if_pos h2]
      rw [abs_le]
      push_cast
      constructor <;> linarith
    · by_cases h3 : ⌊x⌋ % 2 = 0
      · simp only [if_neg h2, if_pos h3]
        rw [abs_le]
        constructor <;> linarith
      · simp only [if_neg h2, if_neg h3]
        rw [abs_le]
        push_cast
        constructor <;> linarith

theorem silencePage_pcm (fi : FormatInfo) (r : Option ℕ)
    (hfmt : fi.format = .pcm r) :
    fi.silencePage = .ok (List.replicate fi.nBytesPerPage 0) := by
  have hrep : ∀ n : ℕ, (List.replicate n ([0, 0] : List Byte)).flatten =
      List.replicate (2 * n) (0 : Byte) := by
    intro n
    induction n with
    | zero => rfl
    | succ k ih =>
      rw [List.replicate_succ, List.flatten_cons, ih]
      rw [show 2 * (k + 1) = 2 * k + 2 by ring]
      rw [show ∀ m : ℕ, List.replicate (m + 2) (0 : Byte)
            = 0 :: 0 :: List.replicate m 0 by
        intro m
        rw [show m + 2 = (m + 1) + 1 by ring]
        rw [List.replicate_succ, List.replicate_succ]]
      rfl
  have hp : fi.nBytesPerPage = 2 * fi.n_samples_per_page := by
    simp [FormatInfo.nBytesPerPage, hfmt, nBytesPerSample, N_CHANNELS]
  simp [FormatInfo.silencePage, silenceSample, hfmt, hrep, hp]

theorem wf_mk (fi : FormatInfo) (dq : List (List Byte)) (tl : Option (List Byte))
    (h1 : ∀ pg ∈ dq, pg.length = fi.nBytesPerPage)
    (h2 : ∀ t, tl = some t → t.length < fi.nBytesPerPage) :
    Buffer.WF fi ⟨dq, tl⟩ := by
  refine ⟨h1, ?_⟩
  cases tl with
  | none => trivial
  | some t => exact h2 t rfl

/-- `Buffer.pop` over a PCM format on a well-formed buffer: it succeeds, the
content portion of the returned page is the next run of buffered bytes, the
page is one `n_bytes_per_page` long, and the result is well-formed. -/
theorem pop_pcm (fi : FormatInfo) (r : Option ℕ) (hfmt : fi.format = .pcm r)
    (b : Buffer) (hwf : b.WF fi) :
    ∃ pg c b', b.pop fi = .ok ((pg, c), b') ∧
      pg.take c ++ b'.contents = b.contents ∧ b'.WF fi ∧
      pg.length = fi.nBytesPerPage := by
  obtain ⟨hdq, htl⟩ := hwf
  have hsp := silencePage_pcm fi r hfmt
  cases hb : b.dq with
  | cons page rest =>
    refine ⟨page, fi.nBytesPerPage, ⟨rest, b.tail⟩, ?_, ?_, ?_, ?_⟩
    · simp [Buffer.pop, hb]
    · have hlen : page.length = fi.nBytesPerPage := hdq page (by simp [hb])
      rw [← hlen, List.take_length]
      simp [Buffer.contents, hb]
    · exact ⟨fun pg hpg => hdq pg (by simp [hb, hpg]), htl⟩
    · exact hdq page (by simp [hb])
  | nil =>
    cases ht : b.tail with
    | none =>
      refine ⟨List.replicate fi.nBytesPerPage 0, 0, ⟨[], none⟩, ?_, ?_, ?_, ?_⟩
      · simp [Buffer.pop, hb, ht, hsp]
      · simp [Buffer.contents, hb, ht]
      · exact ⟨by simp, by simp [Buffer.WF]⟩
      · simp
    | some t =>
      have htlen : t.length < fi.nBytesPerPage := by
        rw [ht] at htl
        exact htl
      refine ⟨t ++ (List.replicate fi.nBytesPerPage 0).drop t.length, t.length,
        ⟨[], none⟩, ?_, ?_, ?_, ?_⟩
      · simp [Buffer.pop, hb, ht, hsp]
      · rw [List.take_left]
        simp [Buffer.contents, hb, ht]
      · exact ⟨by simp, by simp [Buffer.WF]⟩
      · rw [List.length_append, List.length_drop, List.length_replicate]
        omega

/-- The page-splitting loop: given enough fuel and a positive page size, it
preserves the byte stream, produces only full pages, and leaves a nonempty
short tail. -/
theorem appendLoopAux_spec (p : ℕ) (hp : 0 < p) :
    ∀ fuel mv dq, mv.length ≤ fuel →
      ((appendLoopAux p fuel dq mv).1.flatten ++
        ((appendLoopAux p fuel dq mv).2.getD []) = dq.flatten ++ mv) ∧
      (∀ pg ∈ (appendLoopAux p fuel dq mv).1, pg ∈ dq ∨ pg.length = p) ∧
      (∀ t, (appendLoopAux p fuel dq mv).2 = some t → t.length < p) := by
  intro fuel
  induction fuel with
  | zero =>
    intro mv dq hle
    have : mv = [] := List.eq_nil_of_length_eq_zero (Nat.le_zero.mp hle)
    subst this
    exact ⟨by simp [appendLoopAux], fun pg hpg => Or.inl hpg,
      by simp [appendLoopAux]⟩
  | succ k ih =>
    intro mv dq hle
    cases mv with
    | nil =>
      exact ⟨by simp [appendLoopAux], fun pg hpg => Or.inl hpg,
        by simp [appendLoopAux]⟩
    | cons x xs =>
      rw [show appendLoopAux p (k + 1) dq (x :: xs) =
          if ((x :: xs).take p).length = p then
            appendLoopAux p k (dq ++ [(x :: xs).take p]) ((x :: xs).drop p)
          else (dq, some (x :: xs)) from rfl]
      by_cases hc : ((x :: xs).take p).length = p
      · rw [if_pos hc]
        have hplen : p ≤ (x :: xs).length := by
          rw [List.length_take] at hc
          omega
        have hlen2 : (x :: xs).length = xs.length + 1 := by simp
        have hdrop : ((x :: xs).drop p).length ≤ k := by
          rw [List.length_drop, hlen2]
          rw [hlen2] at hle
          omega
        obtain ⟨ih1, ih2, ih3⟩ := ih ((x :: xs).drop p) (dq ++ [(x :: xs).take p]) hdrop
        refine ⟨?_, ?_, ih3⟩
        · rw [ih1, List.flatten_append]
          simp [List.append_assoc]
        · intro pg hpg
          rcases ih2 pg hpg with h | h
          · rcases List.mem_append.mp h with h' | h'
            · exact Or.inl h'
            · right
              simp only [List.mem_singleton] at h'
              rw [h']
              exact hc
          · exact Or.inr h
      · rw [if_neg hc]
        refine ⟨by simp, fun pg hpg => Or.inl hpg, ?_⟩
        intro t ht
        cases ht
        rw [List.length_take] at hc
        by_contra hge
        push_neg at hge
        exact hc (Nat.min_eq_left hge)

/-- `Buffer.append` on a well-formed buffer extends the byte stream and
preserves well-formedness. -/
theorem append_contents (fi : FormatInfo) (hp : 0 < fi.nBytesPerPage)
    (b : Buffer) (hwf : b.WF fi) (data : List Byte) :
    (b.append fi data).contents = b.contents ++ data ∧
      (b.append fi data).WF fi := by
  obtain ⟨hdq, htl⟩ := hwf
  cases ht : b.tail with
  | none =>
    obtain ⟨h1, h2, h3⟩ := appendLoopAux_spec fi.nBytesPerPage hp data.length
      data b.dq (le_refl _)
    have hb : b.append fi data =
        ⟨(appendLoop fi.nBytesPerPage b.dq data).1,
         (appendLoop fi.nBytesPerPage b.dq data).2⟩ := by
      simp [Buffer.append, ht]
    rw [hb]
    refine ⟨?_, ?_⟩
    · simp only [Buffer.contents, appendLoop, ht, Option.getD_none,
        List.append_nil] at h1 ⊢
      exact h1
    · exact wf_mk fi _ _ (fun pg hpg => (h2 pg hpg).elim (hdq pg) id) h3
  | some t =>
    have htlen : t.length < fi.nBytesPerPage := by rw [ht] at htl; exact htl
    by_cases hc : (t ++ data.take (fi.nBytesPerPage - t.length)).length
        < fi.nBytesPerPage
    · have hb : b.append fi data =
          ⟨b.dq, some (t ++ data.take (fi.nBytesPerPage - t.length))⟩ := by
        simp only [Buffer.append, ht]
        rw [if_pos hc]
      rw [hb]
      have hdata : data.length < fi.nBytesPerPage - t.length := by
        rw [List.length_append, List.length_take] at hc
        omega
      have htake : data.take (fi.nBytesPerPage - t.length) = data :=
        List.take_of_length_le (le_of_lt hdata)
      refine ⟨?_, ?_⟩
      · simp [Buffer.contents, ht, htake]
      · refine wf_mk fi _ _ hdq ?_
        intro u hu
        cases hu
        rw [htake, List.length_append]
        omega
    · have hb : b.append fi data =
          ⟨(appendLoop fi.nBytesPerPage
              (b.dq ++ [t ++ data.take (fi.nBytesPerPage - t.length)])
              (data.drop (fi.nBytesPerPage - t.length))).1,
            (appendLoop fi.nBytesPerPage
              (b.dq ++ [t ++ data.take (fi.nBytesPerPage - t.length)])
              (data.drop (fi.nBytesPerPage - t.length))).2⟩ := by
        simp only [Buffer.append, ht]
        rw [if_neg hc]
      rw [hb]
      have ht2len : (t ++ data.take (fi.nBytesPerPage - t.length)).length
          = fi.nBytesPerPage := by
        rw [List.length_append, List.length_take]
        rw [List.length_append, List.length_take] at hc
        omega
      obtain ⟨h1, h2, h3⟩ := appendLoopAux_spec fi.nBytesPerPage hp
        (data.drop (fi.nBytesPerPage - t.length)).length
        (data.drop (fi.nBytesPerPage - t.length))
        (b.dq ++ [t ++ data.take (fi.nBytesPerPage - t.length)]) (le_refl _)
      refine ⟨?_, ?_⟩
      · simp only [Buffer.contents, appendLoop] at h1 ⊢
        rw [ht, h1, List.flatten_append]
        simp only [List.flatten_cons, List.flatten_nil, List.append_nil,
          Option.getD_some]
        rw [List.append_assoc, List.append_assoc, List.append_assoc,
          List.take_append_drop]
      · refine wf_mk fi _ _ ?_ h3
        intro pg hpg
        rcases h2 pg hpg with h | h
        · rcases List.mem_append.mp h with h' | h'
          · exact hdq pg h'
          · simp only [List.mem_singleton] at h'
            rw [h']
            exact ht2len
        · exact h

/-- The run invariant behind FIFO well-orderedness: over a PCM format, a
successful run takes a well-formed buffer to a well-formed buffer, and the
concatenated content portions of the popped pages followed by the remaining
buffered bytes equal the initial buffered bytes followed by all appended
bytes. -/
theorem runBuffer_invariant (fi : FormatInfo) (r : Option ℕ)
    (hfmt : fi.format = .pcm r) (hn : 0 < fi.n_samples_per_page) :
    ∀ ops b b' outs, b.WF fi → runBuffer fi b ops = .ok (b', outs) →
      poppedContent outs ++ b'.contents = b.contents ++ appendedBytes ops ∧
        b'.WF fi := by
  have hp : 0 < fi.nBytesPerPage := by
    simp only [FormatInfo.nBytesPerPage, hfmt, nBytesPerSample, N_CHANNELS]
    omega
  intro ops
  induction ops with
  | nil =>
    intro b b' outs hwf hrun
    simp only [runBuffer] at hrun
    cases hrun
    exact ⟨by simp [poppedContent, appendedBytes], hwf⟩
  | cons op rest ih =>
    intro b b' outs hwf hrun
    cases op with
    | app d =>
      simp only [runBuffer] at hrun
      obtain ⟨hcont, hwf'⟩ := append_contents fi hp b hwf d
      obtain ⟨ih1, ih2⟩ := ih (b.append fi d) b' outs hwf' hrun
      refine ⟨?_, ih2⟩
      rw [ih1, hcont]
      simp [appendedBytes, List.filterMap_cons, List.append_assoc]
    | pop =>
      simp only [runBuffer] at hrun
      obtain ⟨pg, c, b1, hpop, hcontent, hwf1, _⟩ := pop_pcm fi r hfmt b hwf
      rw [hpop] at hrun
      simp only [ok_bind] at hrun
      cases hrest : runBuffer fi b1 rest with
      | error e => rw [hrest] at hrun; exact absurd hrun (by simp)
      | ok s =>
        rw [hrest] at hrun
        simp only [ok_bind] at hrun
        cases hrun
        obtain ⟨ih1, ih2⟩ := ih b1 s.1 s.2 hwf1 hrest
        refine ⟨?_, ih2⟩
        simp only [poppedContent, List.map_cons, List.flatten_cons,
          appendedBytes, List.filterMap_cons] at ih1 ⊢
        rw [List.append_assoc, ih1, ← List.append_assoc, hcontent]

/-- C1 counterexample: with a 2-byte page, the trace
`append [1]; pop; append [2]; pop` pops only non-empty buffers and drains the
buffer, yet the concatenation of the returned pages truncated to the total
appended length is `[1, 0]`, not the appended bytes `[1, 2]`: the first pop
pads the one-byte tail with silence, and a later append cannot reorder the
already-emitted padding. So the claimed equality fails for this interleaving
of `Buffer.append` and `Buffer.pop`. -/
theorem buffer_fifo_interleaving_counterexample :
    runBuffer ⟨.pcm none, 1⟩ Buffer.empty
        [BufOp.app [1], BufOp.pop, BufOp.app [2], BufOp.pop] =
      .ok (Buffer.empty, [([1, 0], 1), ([2, 0], 1)]) ∧
    appendedBytes [BufOp.app [1], BufOp.pop, BufOp.app [2], BufOp.pop] =
      [1, 2] ∧
    (poppedPages [([1, 0], 1), ([2, 0], 1)]).take
        (appendedBytes [BufOp.app [1], BufOp.pop, BufOp.app [2], BufOp.pop]).length
      ≠ appendedBytes [BufOp.app [1], BufOp.pop, BufOp.app [2], BufOp.pop] := by
  decide

/-- C1 (amended): FIFO well-orderedness of the page buffer. For every
interleaved sequence of `Buffer.append` and `Buffer.pop` calls starting from
an empty buffer (over a PCM format with a positive page size), the
concatenation of the content portions of the popped pages — each page
truncated to its returned `n_content_bytes` — followed by the bytes still
buffered, equals the concatenation of the appended bytes. The original
claim's equality (full pages truncated to the total appended length) holds
only when no silence-padding pop precedes a later append and the run drains
the buffer; the counterexample shows it fails otherwise. -/
theorem buffer_fifo_well_ordered (fi : FormatInfo) (r : Option ℕ)
    (hfmt : fi.format = .pcm r) (hn : 0 < fi.n_samples_per_page)
    (ops : List BufOp) (b' : Buffer) (outs : List (List Byte × ℕ))
    (hrun : runBuffer fi Buffer.empty ops = .ok (b', outs)) :
    poppedContent outs ++ b'.contents = appendedBytes ops := by
  have hwf : Buffer.empty.WF fi := wf_mk fi [] none (by simp) (by simp)
  have h := runBuffer_invariant fi r hfmt hn ops Buffer.empty b' outs hwf hrun
  simpa [Buffer.empty, Buffer.contents] using h.1

theorem buffer_fifo_well_ordered_witness :
    poppedContent [([1, 0], 1), ([2, 0], 1)] ++ Buffer.empty.contents =
      appendedBytes [BufOp.app [1], BufOp.pop, BufOp.app [2], BufOp.pop] :=
  buffer_fifo_well_ordered ⟨.pcm none, 1⟩ none rfl (by decide)
    [BufOp.app [1], BufOp.pop, BufOp.app [2], BufOp.pop] Buffer.empty
    [([1, 0], 1), ([2, 0], 1)] (by decide)

/-- C5: pop boundary behavior over a PCM format, on any buffer satisfying
the documented state invariant: popping an empty buffer returns the silence
page with `n_content_bytes = 0`; popping with an empty deque but a tail `t`
returns `t` padded with silence to a full page with `n_content_bytes =
t.length` and leaves the buffer empty; and every page returned by `pop` has
length exactly `n_bytes_per_page`. -/
theorem buffer_pop_boundary (fi : FormatInfo) (r : Option ℕ)
    (hfmt : fi.format = .pcm r) (b : Buffer) (hwf : b.WF fi) :
    (b.dq = [] → b.tail = none →
      b.pop fi = .ok ((List.replicate fi.nBytesPerPage 0, 0),
        ⟨[], none⟩)) ∧
    (∀ t, b.dq = [] → b.tail = some t →
      b.pop fi = .ok
        ((t ++ List.replicate (fi.nBytesPerPage - t.length) 0, t.length),
         ⟨[], none⟩)) ∧
    (∀ pg c b', b.pop fi = .ok ((pg, c), b') →
      pg.length = fi.nBytesPerPage) := by
  have hsp := silencePage_pcm fi r hfmt
  refine ⟨?_, ?_, ?_⟩
  · intro h1 h2
    simp [Buffer.pop, h1, h2, hsp]
  · intro t h1 h2
    have htlen : t.length ≤ fi.nBytesPerPage := by
      obtain ⟨_, htl⟩ := hwf
      rw [h2] at htl
      exact le_of_lt htl
    have hdroprep : (List.replicate fi.nBytesPerPage (0 : Byte)).drop t.length
        = List.replicate (fi.nBytesPerPage - t.length) 0 := by
      rw [List.drop_replicate]
    simp [Buffer.pop, h1, h2, hsp, hdroprep]
  · intro pg c b' hpop
    obtain ⟨pg', c', b'', hpop', _, _, hlen⟩ := pop_pcm fi r hfmt b hwf
    rw [hpop'] at hpop
    simp only [Except.ok.injEq, Prod.mk.injEq] at hpop
    obtain ⟨⟨h1, _⟩, _⟩ := hpop
    rw [← h1]
    exact hlen

theorem buffer_pop_boundary_witness :
    Buffer.pop ⟨AudioFormat.pcm none, 2⟩ ⟨[], some [7]⟩ =
      .ok (([7] ++ List.replicate 3 0, 1), ⟨[], none⟩) :=
  (buffer_pop_boundary ⟨.pcm none, 2⟩ none rfl ⟨[], some [7]⟩
    ⟨by simp, by norm_num [FormatInfo.nBytesPerPage, nBytesPerSample,
      N_CHANNELS]⟩).2.1 [7] rfl rfl

/-- C10: for an A-law or a μ-law format, `Buffer.pop` raises `ValueError`
whenever the page deque is empty — both with no tail (the empty-buffer case)
and with a short tail (the padding case) — because `silence_sample` is
defined only for PCM. -/
theorem buffer_pop_non_pcm (fi : FormatInfo)
    (hfmt : fi.format = .pcma ∨ fi.format = .pcmu) (b : Buffer)
    (hdq : b.dq = []) : b.pop fi = .error .valueError := by
  have hsp : fi.silencePage = .error .valueError := by
    rcases hfmt with h | h <;> simp [FormatInfo.silencePage, silenceSample, h]
  cases ht : b.tail with
  | none => simp [Buffer.pop, hdq, ht, hsp]
  | some t => simp [Buffer.pop, hdq, ht, hsp]

theorem buffer_pop_non_pcm_witness :
    Buffer.pop ⟨AudioFormat.pcma, 4⟩ ⟨[], some [5]⟩ = .error .valueError ∧
    Buffer.pop ⟨AudioFormat.pcmu, 4⟩ ⟨[], none⟩ = .error .valueError :=
  ⟨buffer_pop_non_pcm ⟨.pcma, 4⟩ (Or.inl rfl) ⟨[], some [5]⟩ rfl,
   buffer_pop_non_pcm ⟨.pcmu, 4⟩ (Or.inr rfl) ⟨[], none⟩ rfl⟩

/-- C8: `ConfigSpecification.__post_init__` rejects an explicit sample count
combined with a single-number latency as `OverSpecified`, rejects the fully
unspecified case as `UnderSpecified`, and accepts a specification carrying
exactly one of an explicit count, a single latency, or a latency window. -/
theorem config_spec_validation (f : Option AudioFormat) (n : ℤ)
    (m lo hi : ℚ) :
    ConfigSpecification.postInit ⟨f, some n, some (.single m)⟩ =
      .error .overSpecified ∧
    ConfigSpecification.postInit ⟨f, none, none⟩ = .error .underSpecified ∧
    ConfigSpecification.postInit ⟨f, some n, none⟩ = .ok () ∧
    ConfigSpecification.postInit ⟨f, none, some (.single m)⟩ = .ok () ∧
    ConfigSpecification.postInit ⟨f, none, some (.window lo hi)⟩ = .ok () := by
  refine ⟨?_, ?_, ?_, ?_, ?_⟩ <;> simp [ConfigSpecification.postInit]

/-- C4 counterexample: resolving an 8 kHz PCM format against the latency
window `(0.01 ms, 0.02 ms)` picks the sample count
`round(0.015 / 1000 * 8000) = 0`, whose `ms_per_page` is `0`, outside the
window; the window branch of `resolve` performs no containment assertion, so
the claimed `a ≤ ms_per_page ≤ b` fails. -/
theorem resolve_window_counterexample :
    ConfigSpecification.resolve
        ⟨some (.pcm (some 8000)), none, some (.window (1 / 100) (1 / 50))⟩
        none =
      .ok ⟨.pcm (some 8000), 0⟩ ∧
    ConfigInfo.msPerPage ⟨.pcm (some 8000), 0⟩ = .ok 0 ∧
    ¬ ((1 : ℚ) / 100 ≤ 0 ∧ (0 : ℚ) ≤ 1 / 50) := by
  have hr : sampleRate (.pcm (some 8000)) = .ok 8000 := rfl
  refine ⟨?_, ?_, ?_⟩
  · rw [show ConfigSpecification.resolve
          ⟨some (.pcm (some 8000)), none, some (.window (1 / 100) (1 / 50))⟩
          none =
        (do
          let r ← sampleRate (.pcm (some 8000))
          Except.ok (⟨.pcm (some 8000),
            pyRound (((1 : ℚ) / 100 + 1 / 50) / 2 / 1000 * (r : ℚ))⟩ :
              ConfigInfo)) from rfl]
    rw [hr]
    simp only [ok_bind, Except.ok.injEq, ConfigInfo.mk.injEq, true_and]
    norm_num [pyRound]
  · rw [show ConfigInfo.msPerPage ⟨.pcm (some 8000), 0⟩ =
        (do
          let r ← sampleRate (.pcm (some 8000))
          Except.ok (((0 : ℤ) : ℚ) / (r : ℚ) * 1000)) from rfl]
    rw [hr]
    simp
  · norm_num

/-- C4 (amended): with no explicit sample count and a latency window
`(lo, hi)`, `resolve` on a PCM format picks exactly the sample count
`round((lo + hi) / 2 / 1000 * sample_rate)` — the count closest to the
window midpoint — and the resulting `ms_per_page` is within `500 /
sample_rate` ms of the midpoint; consequently `lo ≤ ms_per_page ≤ hi` holds
whenever the window is at least one sample-duration wide (`1000 /
sample_rate ≤ hi - lo`). The code performs no containment assertion in this
branch, and for narrower windows the result can fall outside the window (see
the counterexample). -/
theorem resolve_window_amended (fmt : AudioFormat) (sp : Option AudioFormat)
    (rr : Option ℕ) (hfmt : fmt = .pcm rr) (lo hi : ℚ) :
    ∃ rq : ℕ, sampleRate fmt = .ok rq ∧ 0 < rq ∧
      ConfigSpecification.resolve ⟨some fmt, none, some (.window lo hi)⟩ sp =
        .ok ⟨fmt, pyRound ((lo + hi) / 2 / 1000 * (rq : ℚ))⟩ ∧
      ∀ ms, ConfigInfo.msPerPage
          ⟨fmt, pyRound ((lo + hi) / 2 / 1000 * (rq : ℚ))⟩ = .ok ms →
        |ms - (lo + hi) / 2| ≤ 500 / (rq : ℚ) ∧
        (1000 / (rq : ℚ) ≤ hi - lo → lo ≤ ms ∧ ms ≤ hi) := by
  obtain ⟨rq, hr, hrpos⟩ : ∃ rq : ℕ, sampleRate fmt = .ok rq ∧ 0 < rq := by
    subst hfmt
    cases rr with
    | none => exact ⟨24000, rfl, by norm_num⟩
    | some v =>
      cases v with
      | zero => exact ⟨24000, rfl, by norm_num⟩
      | succ k => exact ⟨k + 1, rfl, by omega⟩
  have hrq : (0 : ℚ) < (rq : ℚ) := by exact_mod_cast hrpos
  refine ⟨rq, hr, hrpos, ?_, ?_⟩
  · rw [show ConfigSpecification.resolve
          ⟨some fmt, none, some (.window lo hi)⟩ sp =
        (do
          let r ← sampleRate fmt
          Except.ok (⟨fmt, pyRound ((lo + hi) / 2 / 1000 * (r : ℚ))⟩ :
              ConfigInfo)) from rfl]
    rw [hr]
    simp
  · intro ms hms
    rw [show ConfigInfo.msPerPage
          ⟨fmt, pyRound ((lo + hi) / 2 / 1000 * (rq : ℚ))⟩ =
        (do
          let r ← sampleRate fmt
          Except.ok (((pyRound ((lo + hi) / 2 / 1000 * (rq : ℚ)) : ℤ) : ℚ) /
            (r : ℚ) * 1000)) from rfl] at hms
    rw [hr] at hms
    simp only [ok_bind, Except.ok.injEq] at hms
    set t := (lo + hi) / 2 / 1000 * (rq : ℚ) with htdef
    have hms' : ms = ((pyRound t : ℤ) : ℚ) / (rq : ℚ) * 1000 := hms.symm
    have hmid : ms - (lo + hi) / 2 = ((pyRound t : ℚ) - t) * (1000 / rq) := by
      rw [hms', htdef]
      field_simp
      ring
    have habs : |ms - (lo + hi) / 2| ≤ 500 / (rq : ℚ) := by
      rw [hmid, abs_mul, abs_of_pos (by positivity : (0 : ℚ) < 1000 / rq)]
      have h1 := pyRound_sub_le t
      have h2 : |(pyRound t : ℚ) - t| * (1000 / rq) ≤ (1 / 2) * (1000 / rq) :=
        mul_le_mul_of_nonneg_right h1 (by positivity)
      calc |(pyRound t : ℚ) - t| * (1000 / rq) ≤ (1 / 2) * (1000 / rq) := h2
        _ = 500 / rq := by ring
    refine ⟨habs, ?_⟩
    intro hwidth
    rw [abs_le] at habs
    have h500 : 500 / (rq : ℚ) = (1000 / (rq : ℚ)) / 2 := by ring
    constructor <;> linarith [habs.1, habs.2, h500]

theorem resolve_window_amended_witness :
    ∃ rq : ℕ, sampleRate (.pcm (some 24000)) = .ok rq ∧ 0 < rq ∧
      ConfigSpecification.resolve
          ⟨some (.pcm (some 24000)), none, some (.window 80 90)⟩ none =
        .ok ⟨.pcm (some 24000), pyRound ((80 + 90) / 2 / 1000 * (rq : ℚ))⟩ ∧
      ∀ ms, ConfigInfo.msPerPage
          ⟨.pcm (some 24000), pyRound ((80 + 90) / 2 / 1000 * (rq : ℚ))⟩ =
            .ok ms →
        |ms - (80 + 90) / 2| ≤ 500 / (rq : ℚ) ∧
        (1000 / (rq : ℚ) ≤ 90 - 80 → 80 ≤ ms ∧ ms ≤ 90) :=
  resolve_window_amended (.pcm (some 24000)) none (some 24000) rfl 80 90

theorem sampleRate_pcm_pos (rr : Option ℕ) :
    ∃ rq : ℕ, sampleRate (.pcm rr) = .ok rq ∧ 0 < rq := by
  cases rr with
  | none => exact ⟨24000, rfl, by norm_num⟩
  | some v =>
    cases v with
    | zero => exact ⟨24000, rfl, by norm_num⟩
    | succ k => exact ⟨k + 1, rfl, by omega⟩

/-- C9: `_interrupt` divides `elapsed_ms` by
`speech_total_ms = audio_total_bytes * ms_per_byte` with no zero guard, so
when the interrupted cell records `audio_total_bytes = 0` (and the output
format is the supported PCM), the procedure raises `ZeroDivisionError`; the
`Except` short-circuits before the send block, so no `response.cancel` or
`conversation.item.truncate` event is sent, for any send outcomes. -/
theorem interrupt_zero_division (rr : Option ℕ) (tr : Option (List Char))
    (outcomes : List SendOutcome) (item_id : String) (ci : ℤ) (ems : ℚ) :
    interruptProc ⟨0, some (.pcm rr), tr⟩ outcomes item_id ci ems =
      .error .zeroDivision := by
  obtain ⟨rq, hr, _⟩ := sampleRate_pcm_pos rr
  simp only [interruptProc, ok_bind]
  rw [hr]
  simp [pydiv]

theorem runTriggers_count (item_id : String) :
    ∀ (trigs : List TaskSpec) (st : InterruptState),
      ((runTriggers st trigs).2.filter fun t => t.item_id == item_id).length ≤
        if item_id ∈ st.already_interrupted then 0 else 1 := by
  intro trigs
  induction trigs with
  | nil =>
    intro st
    simp [runTriggers]
  | cons t rest ih =>
    intro st
    by_cases hmem : t.item_id ∈ st.already_interrupted
    · have h2 : (runTriggers st (t :: rest)).2 = (runTriggers st rest).2 := by
        simp [runTriggers, startInterrupt, hmem]
      rw [h2]
      exact ih st
    · have h2 : (runTriggers st (t :: rest)).2 =
          (⟨t.item_id, t.content_index, t.elapsed_ms⟩ : TaskSpec) ::
            (runTriggers
              ⟨st.is_user_talking, insert t.item_id st.already_interrupted⟩
              rest).2 := by
        simp [runTriggers, startInterrupt, hmem]
      rw [h2]
      have hih := ih ⟨st.is_user_talking,
        insert t.item_id st.already_interrupted⟩
      by_cases htarget : t.item_id = item_id
      · subst htarget
        rw [if_neg hmem]
        rw [if_pos (Finset.mem_insert_self t.item_id st.already_interrupted)]
          at hih
        have hzero :
            ((runTriggers
              ⟨st.is_user_talking, insert t.item_id st.already_interrupted⟩
              rest).2.filter fun s => s.item_id == t.item_id).length = 0 :=
          Nat.le_zero.mp hih
        simp [List.filter_cons, hzero]
      · simp only [List.filter_cons]
        rw [show ((⟨t.item_id, t.content_index, t.elapsed_ms⟩ :
            TaskSpec).item_id == item_id) = false by
          simp [htarget]]
        by_cases hm2 : item_id ∈ st.already_interrupted
        · rw [if_pos hm2]
          rw [if_pos (by
            rw [Finset.mem_insert]
            exact Or.inr hm2)] at hih
          exact hih
        · rw [if_neg hm2]
          rw [if_neg (by
            rw [Finset.mem_insert]
            push_neg
            exact ⟨fun h => htarget h.symm, hm2⟩)] at hih
          exact hih

theorem interruptProc_ok (env : InterruptEnv) (rr : Option ℕ)
    (hfmt : env.audio_format_output = some (.pcm rr))
    (hbytes : env.cell_audio_total_bytes ≠ 0)
    (outcomes : List SendOutcome) (item_id : String) (ci : ℤ) (ems : ℚ) :
    ∃ res : InterruptResult,
      interruptProc env outcomes item_id ci ems = .ok res ∧
      res.sent = sendAll outcomes
        [.responseCancel, .itemTruncate item_id ci (pyRound ems)] ∧
      res.audio_truncate = (ci, pyRound ems) := by
  obtain ⟨rq, hr, hrpos⟩ := sampleRate_pcm_pos rr
  have hden : ((env.cell_audio_total_bytes : ℚ) *
      (1000 / ((rq : ℚ) * (N_CHANNELS : ℚ) *
        (nBytesPerSample (AudioFormat.pcm rr) : ℚ)))) ≠ 0 := by
    have hb : (env.cell_audio_total_bytes : ℚ) ≠ 0 :=
      Nat.cast_ne_zero.mpr hbytes
    have hq : (0 : ℚ) < (rq : ℚ) := by exact_mod_cast hrpos
    have : (0 : ℚ) < 1000 / ((rq : ℚ) * (N_CHANNELS : ℚ) *
        (nBytesPerSample (AudioFormat.pcm rr) : ℚ)) := by
      simp only [nBytesPerSample, N_CHANNELS]
      positivity
    exact mul_ne_zero hb (ne_of_gt this)
  have hpr : pydiv ems ((env.cell_audio_total_bytes : ℚ) *
      (1000 / ((rq : ℚ) * (N_CHANNELS : ℚ) *
        (nBytesPerSample (AudioFormat.pcm rr) : ℚ)))) =
      .ok (ems / ((env.cell_audio_total_bytes : ℚ) *
        (1000 / ((rq : ℚ) * (N_CHANNELS : ℚ) *
          (nBytesPerSample (AudioFormat.pcm rr) : ℚ))))) := by
    simp [pydiv, hden]
  simp only [interruptProc, hfmt, ok_bind]
  rw [hr]
  simp only [ok_bind]
  rw [hpr]
  simp only [ok_bind]
  exact ⟨_, rfl, rfl, rfl⟩

/-- C6: the interrupt procedure runs at most once per item — over any
sequence of `_start_interrupt` triggers, at most one `_interrupt` task is
spawned per item id (none when the id is already interrupted), and a trigger
for an already-interrupted id is a state-preserving no-op — and when the
procedure runs (PCM output format, nonzero audio byte count) it completes
with outbound `response.cancel` followed by
`conversation.item.truncate(item_id, content_index, round(elapsed_ms))`, and
a `ConnectionClosedOK` raised during the sends stops the remaining sends and
is swallowed (the procedure still returns normally, for any send outcomes). -/
theorem interrupt_exactly_once_and_order (env : InterruptEnv) (rr : Option ℕ)
    (hfmt : env.audio_format_output = some (.pcm rr))
    (hbytes : env.cell_audio_total_bytes ≠ 0)
    (item_id : String) (ci : ℤ) (ems : ℚ) :
    (∀ (st : InterruptState) (trigs : List TaskSpec),
      ((runTriggers st trigs).2.filter fun t => t.item_id == item_id).length ≤
        if item_id ∈ st.already_interrupted then 0 else 1) ∧
    (∀ (st : InterruptState) (ci' : ℤ) (ems' : ℚ),
      item_id ∈ st.already_interrupted →
      startInterrupt st item_id ci' ems' = (st, none)) ∧
    (∃ res : InterruptResult,
      interruptProc env [] item_id ci ems = .ok res ∧
      res.sent = [.responseCancel,
        .itemTruncate item_id ci (pyRound ems)] ∧
      res.audio_truncate = (ci, pyRound ems)) ∧
    (∀ outcomes : List SendOutcome, ∃ res : InterruptResult,
      interruptProc env outcomes item_id ci ems = .ok res ∧
      res.sent = sendAll outcomes
        [.responseCancel, .itemTruncate item_id ci (pyRound ems)]) := by
  refine ⟨fun st trigs => runTriggers_count item_id trigs st,
    fun st ci' ems' h => by simp [startInterrupt, h], ?_, ?_⟩
  · obtain ⟨res, h1, h2, h3⟩ :=
      interruptProc_ok env rr hfmt hbytes [] item_id ci ems
    exact ⟨res, h1, by rw [h2]; rfl, h3⟩
  · intro outcomes
    obtain ⟨res, h1, h2, _⟩ :=
      interruptProc_ok env rr hfmt hbytes outcomes item_id ci ems
    exact ⟨res, h1, h2⟩

theorem interrupt_exactly_once_and_order_witness :
    (∀ (st : InterruptState) (trigs : List TaskSpec),
      ((runTriggers st trigs).2.filter fun t => t.item_id == "i").length ≤
        if "i" ∈ st.already_interrupted then 0 else 1) ∧
    (∀ (st : InterruptState) (ci' : ℤ) (ems' : ℚ),
      "i" ∈ st.already_interrupted →
      startInterrupt st "i" ci' ems' = (st, none)) ∧
    (∃ res : InterruptResult,
      interruptProc ⟨9600, some (.pcm none), none⟩ [] "i" 0 100 = .ok res ∧
      res.sent = [.responseCancel, .itemTruncate "i" 0 (pyRound 100)] ∧
      res.audio_truncate = (0, pyRound 100)) ∧
    (∀ outcomes : List SendOutcome, ∃ res : InterruptResult,
      interruptProc ⟨9600, some (.pcm none), none⟩ outcomes "i" 0 100 =
        .ok res ∧
      res.sent = sendAll outcomes
        [.responseCancel, .itemTruncate "i" 0 (pyRound 100)]) :=
  interrupt_exactly_once_and_order ⟨9600, some (.pcm none), none⟩ none rfl
    (by norm_num) "i" 0 100

/-- C7: a `response.audio.delta` processed while `is_user_talking` (with the
asserted playhead precondition: the reported elapsed time for this item is
zero) has the `is_during_user_speech` metadata flag set by the Interrupt
middleware and is still forwarded; the Audio Player, configured with that
suppression keyword, then leaves every speech buffer unchanged. -/
theorem suppress_delta_during_user_speech (st : InterruptState)
    (pb : PlaybackState) (ev : DeltaEvent) (md : Metadata) (fi : FormatInfo)
    (speeches : List Speech)
    (htalk : st.is_user_talking = true)
    (helapsed : (if pb.current_item_id = some ev.item_id then
      pb.elapsed_ms.getD 0 else 0) = 0) :
    ∃ r : InterruptState × Option TaskSpec × Option DeltaEvent × Metadata,
      interruptHandleDelta st pb ev md = .ok r ∧
      r.2.2.1 = some ev ∧
      r.2.2.2.is_during_user_speech = true ∧
      playerHandleDelta fi (some "is_during_user_speech") speeches ev r.2.2.2 =
        .ok speeches := by
  refine ⟨((startInterrupt st ev.item_id ev.content_index
      (if pb.current_item_id = some ev.item_id then pb.elapsed_ms.getD 0
       else 0)).1,
    (startInterrupt st ev.item_id ev.content_index
      (if pb.current_item_id = some ev.item_id then pb.elapsed_ms.getD 0
       else 0)).2,
    some ev, { md with is_during_user_speech := true }), ?_, rfl, rfl, ?_⟩
  · simp only [interruptHandleDelta, htalk, if_true, helapsed, if_pos rfl]
  · simp [playerHandleDelta, metadataGet]

theorem suppress_delta_during_user_speech_witness :
    ∃ r : InterruptState × Option TaskSpec × Option DeltaEvent × Metadata,
      interruptHandleDelta ⟨true, ∅⟩ ⟨none, none, none⟩ ⟨"i", 0, [1]⟩
          ⟨[], false⟩ = .ok r ∧
      r.2.2.1 = some (⟨"i", 0, [1]⟩ : DeltaEvent) ∧
      r.2.2.2.is_during_user_speech = true ∧
      playerHandleDelta ⟨.pcm none, 2⟩ (some "is_during_user_speech") []
          ⟨"i", 0, [1]⟩ r.2.2.2 = .ok [] :=
  suppress_delta_during_user_speech ⟨true, ∅⟩ ⟨none, none, none⟩
    ⟨"i", 0, [1]⟩ ⟨[], false⟩ ⟨.pcm none, 2⟩ [] rfl (by simp)

theorem enumFrom_filter_nil (id : String) :
    ∀ (l : List Cell) (n : ℕ), (∀ c ∈ l, c.item_id ≠ id) →
      (List.enumFrom n l).filter (fun ic => ic.2.item_id == id) = [] := by
  intro l
  induction l with
  | nil =>
    intro n _
    simp
  | cons c rest ih =>
    intro n h
    rw [List.enumFrom_cons, List.filter_cons]
    have hc : ((n, c).2.item_id == id) = false := by
      simp only [beq_eq_false_iff_ne, ne_eq]
      exact h c (by simp)
    rw [hc]
    simp only [Bool.false_eq_true, if_false]
    exact ih (n + 1) fun c' hc' => h c' (by simp [hc'])

theorem enumFrom_filter_singleton (id : String) :
    ∀ (l : List Cell) (n : ℕ), (l.map Cell.item_id).Nodup →
      id ∈ l.map Cell.item_id →
      ((List.enumFrom n l).filter fun ic => ic.2.item_id == id).map Prod.fst =
        [n + (l.map Cell.item_id).indexOf id] := by
  intro l
  induction l with
  | nil =>
    intro n _ hmem
    simp at hmem
  | cons c rest ih =>
    intro n hnd hmem
    rw [List.enumFrom_cons, List.filter_cons]
    have hnd' : (c.item_id :: rest.map Cell.item_id).Nodup := by
      simpa using hnd
    by_cases hceq : c.item_id = id
    · have hc : ((n, c).2.item_id == id) = true := by simp [hceq]
      rw [hc]
      have hrest : ∀ c' ∈ rest, c'.item_id ≠ id := by
        intro c' hc' heq
        have hhead := (List.nodup_cons.mp hnd').1
        exact hhead (by
          rw [hceq]
          exact List.mem_map.mpr ⟨c', hc', heq⟩)
      rw [if_pos rfl, enumFrom_filter_nil id rest (n + 1) hrest]
      simp [List.indexOf_cons, hceq]
    · have hc : ((n, c).2.item_id == id) = false := by
        simp only [beq_eq_false_iff_ne, ne_eq]
        exact hceq
      rw [hc]
      simp only [Bool.false_eq_true, if_false]
      have hmem' : id ∈ rest.map Cell.item_id := by
        rcases (by simpa using hmem :
            id = c.item_id ∨ ∃ a ∈ rest, a.item_id = id) with h | ⟨a, ha, haid⟩
        · exact absurd h.symm hceq
        · exact List.mem_map.mpr ⟨a, ha, haid⟩
      rw [ih (n + 1) (List.nodup_cons.mp hnd').2 hmem']
      have : (c.item_id == id) = false := by
        simp only [beq_eq_false_iff_ne, ne_eq]
        exact hceq
      rw [show ((c :: rest).map Cell.item_id).indexOf id =
          (rest.map Cell.item_id).indexOf id + 1 by
        simp [List.indexOf_cons, this]]
      congr 1
      omega

theorem seek_eq_ok_of_mem (g : ConversationGroup)
    (hnd : (mainIds g).Nodup) (id : String) (hmem : id ∈ mainIds g) :
    g.seek id = .ok ((mainIds g).indexOf id) := by
  unfold ConversationGroup.seek
  rw [show g.main_conversation.enum = List.enumFrom 0 g.main_conversation
    from rfl]
  rw [enumFrom_filter_singleton id g.main_conversation 0 hnd hmem]
  simp [mainIds]

theorem seek_mem (g : ConversationGroup) (id : String) (i : ℕ)
    (h : g.seek id = .ok i) : id ∈ mainIds g := by
  by_contra hmem
  have hall : ∀ c ∈ g.main_conversation, c.item_id ≠ id := by
    intro c hc heq
    exact hmem (List.mem_map.mpr ⟨c, hc, heq⟩)
  unfold ConversationGroup.seek at h
  rw [show g.main_conversation.enum = List.enumFrom 0 g.main_conversation
    from rfl] at h
  rw [enumFrom_filter_nil id g.main_conversation 0 hall] at h
  simp at h

theorem seek_ok_unique (g : ConversationGroup) (hnd : (mainIds g).Nodup)
    (id : String) (i : ℕ) (h : g.seek id = .ok i) :
    i = (mainIds g).indexOf id ∧ id ∈ mainIds g := by
  have hm := seek_mem g id i h
  have h2 := seek_eq_ok_of_mem g hnd id hm
  rw [h2] at h
  exact ⟨(Except.ok.inj h).symm, hm⟩

theorem indexAfter_spec (g : ConversationGroup) (hnd : (mainIds g).Nodup)
    (prev : Option String) (i : ℕ) (h : g.indexAfter prev = .ok i) :
    i ≤ g.main_conversation.length ∧
    (isRoot prev = true → i = 0) ∧
    (∀ pid, prev = some pid → isRoot prev = false →
      pid ∈ mainIds g ∧ i = (mainIds g).indexOf pid + 1) := by
  cases prev with
  | none =>
    unfold ConversationGroup.indexAfter at h
    rw [if_pos (by simp [isRoot])] at h
    cases h
    exact ⟨Nat.zero_le _, fun _ => rfl, fun pid hpid _ => by cases hpid⟩
  | some pid =>
    by_cases hroot : isRoot (some pid) = true
    · unfold ConversationGroup.indexAfter at h
      rw [if_pos hroot] at h
      cases h
      refine ⟨Nat.zero_le _, fun _ => rfl, ?_⟩
      intro pid' _ hfalse
      rw [hroot] at hfalse
      cases hfalse
    · unfold ConversationGroup.indexAfter at h
      rw [if_neg hroot] at h
      have h' : (do
          let k ← g.seek pid
          Except.ok (k + 1) : Except PyError ℕ) = .ok i := h
      cases hseek : g.seek pid with
      | error e =>
        rw [hseek] at h'
        exact absurd h' (by simp)
      | ok k =>
        rw [hseek] at h'
        simp only [ok_bind] at h'
        cases h'
        obtain ⟨hk, hmem⟩ := seek_ok_unique g hnd pid k hseek
        have hlt : (mainIds g).indexOf pid < (mainIds g).length :=
          List.indexOf_lt_length.mpr hmem
        have hlen : (mainIds g).length = g.main_conversation.length := by
          simp [mainIds]
        refine ⟨by omega, fun hr => absurd hr hroot, ?_⟩
        intro pid' hpid' _
        injection hpid' with he
        subst he
        exact ⟨hmem, by rw [hk]⟩

theorem perm_cons_eraseIdx_of_getElem (l : List Cell) (i : ℕ) (c : Cell)
    (h : l[i]? = some c) : l.Perm (c :: l.eraseIdx i) := by
  obtain ⟨hi, hc⟩ := List.getElem?_eq_some.mp h
  conv_lhs => rw [← List.take_append_drop i l]
  rw [List.drop_eq_getElem_cons hi, List.eraseIdx_eq_take_drop_succ, hc]
  exact List.perm_middle

theorem insertAfter_ok_inv (g : ConversationGroup) (cell : Cell)
    (prev : Option String) (g' : ConversationGroup)
    (h : g.insertAfter cell prev = .ok g') :
    ∃ i, g.indexAfter prev = .ok i ∧
      (∀ kv ∈ g.out_of_band_cells, kv.2.item_id ≠ cell.item_id) ∧
      cell.item_id ∉ g.main_conversation_item_ids ∧
      g' = { g with
        main_conversation := g.main_conversation.insertIdx i cell,
        main_conversation_item_ids :=
          insert cell.item_id g.main_conversation_item_ids } := by
  unfold ConversationGroup.insertAfter at h
  split_ifs at h with h1 h2 h3
  · cases hidx : g.indexAfter prev with
    | error e =>
      rw [hidx] at h
      exact absurd h (by simp)
    | ok i =>
      rw [hidx] at h
      simp only [ok_bind] at h
      exact absurd h (by simp)
  · cases hidx : g.indexAfter prev with
    | error e =>
      rw [hidx] at h
      exact absurd h (by simp)
    | ok i =>
      rw [hidx] at h
      simp only [ok_bind] at h
      refine ⟨i, rfl, ?_, h3, (Except.ok.inj h).symm⟩
      intro kv hkv heq
      have hnil := not_not.mp h2
      have := List.filter_eq_nil_iff.mp hnil kv hkv
      simp only [beq_iff_eq] at this
      exact this heq

theorem move_ok_inv (g : ConversationGroup) (id : String)
    (prev : Option String) (g' : ConversationGroup)
    (h : g.move id prev = .ok g') :
    ∃ i cell j, g.seek id = .ok i ∧
      g.main_conversation[i]? = some cell ∧
      ConversationGroup.indexAfter
        { g with main_conversation := g.main_conversation.eraseIdx i } prev =
        .ok j ∧
      g' = { g with main_conversation :=
        (g.main_conversation.eraseIdx i).insertIdx j cell } := by
  unfold ConversationGroup.move at h
  cases hseek : g.seek id with
  | error e =>
    rw [hseek] at h
    exact absurd h (by simp)
  | ok i =>
    rw [hseek] at h
    simp only [ok_bind] at h
    cases hget : g.main_conversation[i]? with
    | none =>
      rw [hget] at h
      exact absurd h (by simp)
    | some cell =>
      rw [hget] at h
      cases hidx : ConversationGroup.indexAfter
          { g with main_conversation := g.main_conversation.eraseIdx i }
          prev with
      | error e =>
        rw [hidx] at h
        exact absurd h (by simp)
      | ok j =>
        rw [hidx] at h
        simp only [ok_bind] at h
        exact ⟨i, cell, j, rfl, hget, hidx, (Except.ok.inj h).symm⟩

theorem trash_ok_inv (g : ConversationGroup) (id : String)
    (g' : ConversationGroup) (h : g.trash id = .ok g') :
    ∃ i cell, g.seek id = .ok i ∧
      g.main_conversation[i]? = some cell ∧
      id ∈ g.main_conversation_item_ids ∧
      g' = { g with
        main_conversation := g.main_conversation.eraseIdx i,
        main_conversation_item_ids :=
          g.main_conversation_item_ids.erase id,
        trashed_cells := g.trashed_cells ++ [cell] } := by
  unfold ConversationGroup.trash at h
  cases hseek : g.seek id with
  | error e =>
    rw [hseek] at h
    exact absurd h (by simp)
  | ok i =>
    rw [hseek] at h
    simp only [ok_bind] at h
    cases hget : g.main_conversation[i]? with
    | none =>
      rw [hget] at h
      exact absurd h (by simp)
    | some cell =>
      rw [hget] at h
      split_ifs at h with hmem
      exact ⟨i, cell, rfl, hget, hmem, (Except.ok.inj h).symm⟩

theorem safeAddOob_ok_inv (g : ConversationGroup) (cell : Cell)
    (g' : ConversationGroup) (h : g.safeAddOob cell = .ok g') :
    g.mainConversationContains cell.item_id = false ∧
    lookupS g.out_of_band_cells cell.item_id = none ∧
    g' = { g with out_of_band_cells :=
      g.out_of_band_cells ++ [(cell.item_id, cell)] } := by
  unfold ConversationGroup.safeAddOob at h
  split_ifs at h with h1 h2
  refine ⟨by simpa using h1, ?_, (Except.ok.inj h).symm⟩
  cases hl : lookupS g.out_of_band_cells cell.item_id with
  | none => rfl
  | some c => exact absurd (by simp [hl] : (lookupS g.out_of_band_cells
      cell.item_id).isSome = true) h2

theorem touch_ok_inv (g : ConversationGroup) (id : String)
    (eid : Option String) (g' : ConversationGroup)
    (hc : g.mainConversationContains id = true)
    (h : g.touch id eid = .ok g') :
    ∃ i cell, g.seek id = .ok i ∧
      g.main_conversation[i]? = some cell ∧
      g' = { g with main_conversation := g.main_conversation.set i { cell with touched_by_event_ids := cell.touched_by_event_ids ++ [eid] } } := by
  unfold ConversationGroup.touch at h
  rw [if_pos hc] at h
  cases hseek : g.seek id with
  | error e =>
    rw [hseek] at h
    exact absurd h (by simp)
  | ok i =>
    rw [hseek] at h
    simp only [ok_bind] at h
    cases hget : g.main_conversation[i]? with
    | none =>
      rw [hget] at h
      exact absurd h (by simp)
    | some cell =>
      rw [hget] at h
      exact ⟨i, cell, rfl, hget, (Except.ok.inj h).symm⟩

theorem applyOp_wf_insertAfter (g : ConversationGroup) (cell : Cell)
    (prev : Option String) (g' : ConversationGroup) (hwf : GroupWF g)
    (h : g.insertAfter cell prev = .ok g') : GroupWF g' := by
  obtain ⟨i, hidx, hoob, hidsmem, rfl⟩ := insertAfter_ok_inv g cell prev g' h
  have hle : i ≤ g.main_conversation.length :=
    (indexAfter_spec g hwf.nodupMain prev i hidx).1
  have hperm : (g.main_conversation.insertIdx i cell).Perm
      (cell :: g.main_conversation) :=
    List.perm_insertIdx cell g.main_conversation hle
  have hpermIds : ((g.main_conversation.insertIdx i cell).map
      Cell.item_id).Perm (cell.item_id :: mainIds g) := by
    simpa [mainIds] using hperm.map Cell.item_id
  have hnotmem : cell.item_id ∉ mainIds g := by
    rw [hwf.idx] at hidsmem
    intro hm
    exact hidsmem (List.mem_toFinset.mpr hm)
  refine ⟨?_, ?_, hwf.oobKeys, ?_⟩
  · exact (List.Perm.nodup_iff hpermIds).mpr
      (List.nodup_cons.mpr ⟨hnotmem, hwf.nodupMain⟩)
  · show insert cell.item_id g.main_conversation_item_ids =
        ((g.main_conversation.insertIdx i cell).map Cell.item_id).toFinset
    rw [hwf.idx, List.toFinset_eq_of_perm _ _ hpermIds, List.toFinset_cons]
  · intro s hs
    have hs' : s = cell.item_id ∨ s ∈ mainIds g := by
      simpa using hpermIds.mem_iff.mp hs
    rcases hs' with rfl | hmem
    · intro hin
      obtain ⟨kv, hkv, hkvid⟩ := List.mem_map.mp hin
      exact hoob kv hkv hkvid
    · exact hwf.mainOobDisjoint s hmem

theorem applyOp_wf_move (g : ConversationGroup) (id : String)
    (prev : Option String) (g' : ConversationGroup) (hwf : GroupWF g)
    (h : g.move id prev = .ok g') : GroupWF g' := by
  obtain ⟨i, cell, j, hseek, hget, hidx, rfl⟩ := move_ok_inv g id prev g' h
  have hperm1 : g.main_conversation.Perm
      (cell :: g.main_conversation.eraseIdx i) :=
    perm_cons_eraseIdx_of_getElem _ i cell hget
  have hnodup1 : ((g.main_conversation.eraseIdx i).map Cell.item_id).Nodup :=
    ((List.eraseIdx_sublist g.main_conversation i).map Cell.item_id).nodup
      (by simpa [mainIds] using hwf.nodupMain)
  have hle : j ≤ (g.main_conversation.eraseIdx i).length := by
    have := (indexAfter_spec
      { g with main_conversation := g.main_conversation.eraseIdx i }
      (by simpa [mainIds] using hnodup1) prev j hidx).1
    simpa using this
  have hperm3 : ((g.main_conversation.eraseIdx i).insertIdx j cell).Perm
      g.main_conversation :=
    (List.perm_insertIdx _ _ hle).trans hperm1.symm
  have hpermIds : (((g.main_conversation.eraseIdx i).insertIdx j cell).map
      Cell.item_id).Perm (mainIds g) := by
    simpa [mainIds] using hperm3.map Cell.item_id
  refine ⟨?_, ?_, hwf.oobKeys, ?_⟩
  · exact (List.Perm.nodup_iff hpermIds).mpr hwf.nodupMain
  · show g.main_conversation_item_ids =
        (((g.main_conversation.eraseIdx i).insertIdx j cell).map
          Cell.item_id).toFinset
    rw [hwf.idx]
    exact (List.toFinset_eq_of_perm _ _ hpermIds).symm
  · intro s hs
    exact hwf.mainOobDisjoint s (hpermIds.mem_iff.mp hs)

theorem applyOp_wf_trash (g : ConversationGroup) (id : String)
    (g' : ConversationGroup) (hwf : GroupWF g)
    (h : g.trash id = .ok g') : GroupWF g' := by
  obtain ⟨i, cell, hseek, hget, _, rfl⟩ := trash_ok_inv g id g' h
  have hperm : g.main_conversation.Perm
      (cell :: g.main_conversation.eraseIdx i) :=
    perm_cons_eraseIdx_of_getElem _ i cell hget
  have hpermIds : (mainIds g).Perm
      (cell.item_id :: (g.main_conversation.eraseIdx i).map Cell.item_id) := by
    simpa [mainIds] using hperm.map Cell.item_id
  have hnd' : (cell.item_id ::
      (g.main_conversation.eraseIdx i).map Cell.item_id).Nodup :=
    (List.Perm.nodup_iff hpermIds).mp hwf.nodupMain
  have hcellid : cell.item_id = id := by
    obtain ⟨hidx, hmem'⟩ := seek_ok_unique g hwf.nodupMain id i hseek
    obtain ⟨hi, hc⟩ := List.getElem?_eq_some.mp hget
    have hilen : i < (mainIds g).length := by simpa [mainIds] using hi
    have hmap : (mainIds g)[i] = cell.item_id := by
      simp [mainIds, hc]
    have hlt : (mainIds g).indexOf id < (mainIds g).length :=
      List.indexOf_lt_length.mpr hmem'
    rw [← hmap]
    subst hidx
    exact List.getElem_indexOf hlt
  refine ⟨?_, ?_, hwf.oobKeys, ?_⟩
  · exact (List.nodup_cons.mp hnd').2
  · show g.main_conversation_item_ids.erase id =
        ((g.main_conversation.eraseIdx i).map Cell.item_id).toFinset
    have hids : g.main_conversation_item_ids =
        insert id ((g.main_conversation.eraseIdx i).map
          Cell.item_id).toFinset := by
      rw [hwf.idx, List.toFinset_eq_of_perm _ _ hpermIds, hcellid,
        List.toFinset_cons]
    have hnotin : id ∉ ((g.main_conversation.eraseIdx i).map
        Cell.item_id).toFinset := by
      intro hin
      exact (List.nodup_cons.mp hnd').1
        (by rw [hcellid]; exact List.mem_toFinset.mp hin)
    rw [hids, Finset.erase_insert hnotin]
  · intro s hs
    exact hwf.mainOobDisjoint s
      (hpermIds.mem_iff.mpr (List.mem_cons_of_mem _ hs))

theorem applyOp_wf_safeAddOob (g : ConversationGroup) (cell : Cell)
    (g' : ConversationGroup) (hwf : GroupWF g)
    (h : g.safeAddOob cell = .ok g') : GroupWF g' := by
  obtain ⟨hcont, _, rfl⟩ := safeAddOob_ok_inv g cell g' h
  have hnotmain : cell.item_id ∉ mainIds g := by
    intro hm
    have hmem : cell.item_id ∈ g.main_conversation_item_ids := by
      rw [hwf.idx]
      exact List.mem_toFinset.mpr hm
    simp [ConversationGroup.mainConversationContains, hmem] at hcont
  refine ⟨hwf.nodupMain, hwf.idx, ?_, ?_⟩
  · intro kv hkv
    rcases List.mem_append.mp hkv with h1 | h1
    · exact hwf.oobKeys kv h1
    · simp only [List.mem_singleton] at h1
      rw [h1]
  · intro s hs hin
    have hs' : s ∈ oobIds g ∨ s = cell.item_id := by
      simpa [oobIds] using hin
    rcases hs' with h1 | rfl
    · exact hwf.mainOobDisjoint s hs h1
    · exact hnotmain hs

theorem applyGroupOp_wf (g : ConversationGroup) (op : GroupOp)
    (g' : ConversationGroup) (hwf : GroupWF g)
    (h : applyGroupOp g op = .ok g') : GroupWF g' := by
  cases op with
  | insertAfterOp c p => exact applyOp_wf_insertAfter g c p g' hwf h
  | moveOp i p => exact applyOp_wf_move g i p g' hwf h
  | trashOp i => exact applyOp_wf_trash g i g' hwf h
  | safeAddOobOp c => exact applyOp_wf_safeAddOob g c g' hwf h

theorem runGroup_wf : ∀ (ops : List GroupOp) (g g' : ConversationGroup),
    GroupWF g → runGroup g ops = .ok g' → GroupWF g' := by
  intro ops
  induction ops with
  | nil =>
    intro g g' hwf h
    simp only [runGroup] at h
    cases h
    exact hwf
  | cons op rest ih =>
    intro g g' hwf h
    simp only [runGroup] at h
    cases hop : applyGroupOp g op with
    | error e =>
      rw [hop] at h
      exact absurd h (by simp)
    | ok g1 =>
      rw [hop] at h
      simp only [ok_bind] at h
      exact ih g1 g' (applyGroupOp_wf g op g1 hwf hop) h

theorem groupWF_init : GroupWF .init := by
  refine ⟨?_, ?_, ?_, ?_⟩ <;> simp [mainIds, oobIds, ConversationGroup.init]

/-- C3 counterexample: `insert_after` and `safe_add_oob` never check the
trash. The operation sequence `insert "a"; trash "a"; insert "a"` runs
without any assertion failing and reaches a state in which `"a"` is both in
the main sequence and in the trash, so the pairwise-disjointness invariant
claimed for all reachable states is false. -/
theorem group_trash_reinsertion_counterexample :
    runGroup .init trashCexOps = .ok trashCexGroup ∧
    ¬ containersDisjoint trashCexGroup := by
  constructor
  · decide
  · intro hdisj
    exact (hdisj.1 "a" (by decide)).2 (by decide)

/-- C3 (amended): in every state reachable from the initial group by any
sequence of `insert_after`, `move`, `trash` and `safe_add_oob` operations,
the membership index set equals exactly the set of item ids of the main
sequence, and the main-sequence and out-of-band ids are disjoint.
Disjointness with the trash does not hold in general: a trashed id can be
re-inserted into the main sequence or the out-of-band map (see the
counterexample). -/
theorem group_invariants_amended (ops : List GroupOp) (g : ConversationGroup)
    (hrun : runGroup .init ops = .ok g) :
    g.main_conversation_item_ids = (mainIds g).toFinset ∧
    ∀ s ∈ mainIds g, s ∉ oobIds g := by
  have hwf := runGroup_wf ops .init g groupWF_init hrun
  exact ⟨hwf.idx, hwf.mainOobDisjoint⟩

theorem group_invariants_amended_witness :
    trashCexGroup.main_conversation_item_ids =
      (mainIds trashCexGroup).toFinset ∧
    ∀ s ∈ mainIds trashCexGroup, s ∉ oobIds trashCexGroup :=
  group_invariants_amended trashCexOps trashCexGroup (by decide)

theorem map_insertIdx {α β : Type} (f : α → β) (a : α) :
    ∀ (n : ℕ) (l : List α),
      (l.insertIdx n a).map f = (l.map f).insertIdx n (f a) := by
  intro n
  induction n with
  | zero =>
    intro l
    simp [List.insertIdx_zero]
  | succ k ih =>
    intro l
    cases l with
    | nil => simp [List.insertIdx_succ_nil]
    | cons x xs => simp [List.insertIdx_succ_cons, ih]

theorem map_eraseIdx {α β : Type} (f : α → β) :
    ∀ (l : List α) (n : ℕ), (l.eraseIdx n).map f = (l.map f).eraseIdx n := by
  intro l
  induction l with
  | nil =>
    intro n
    simp
  | cons x xs ih =>
    intro n
    cases n with
    | zero => simp [List.eraseIdx]
    | succ k => simp [List.eraseIdx, ih]

theorem set_getElem_self {α : Type} :
    ∀ (l : List α) (i : ℕ) (v : α), l[i]? = some v → l.set i v = l := by
  intro l
  induction l with
  | nil =>
    intro i v h
    simp at h
  | cons x xs ih =>
    intro i v h
    cases i with
    | zero =>
      simp only [List.getElem?_cons_zero, Option.some.injEq] at h
      rw [← h]
      rfl
    | succ k =>
      simp only [List.getElem?_cons_succ] at h
      show x :: xs.set k v = x :: xs
      rw [ih k v h]

theorem lookupS_none_forall {α : Type} (l : List (String × α)) (k : String)
    (h : lookupS l k = none) : ∀ kv ∈ l, kv.1 ≠ k := by
  intro kv hkv heq
  have hfind : l.find? (fun kv => kv.1 == k) = none := by
    cases hf : l.find? (fun kv => kv.1 == k) with
    | none => rfl
    | some v => simp [lookupS, hf] at h
  have := List.find?_eq_none.mp hfind kv hkv
  simp [heq] at this

theorem lookupS_append_self {α : Type} :
    ∀ (l : List (String × α)) (k : String) (v : α), lookupS l k = none →
      lookupS (l ++ [(k, v)]) k = some v := by
  intro l
  induction l with
  | nil =>
    intro k v _
    simp [lookupS]
  | cons kv rest ih =>
    intro k v h
    have hne : (kv.1 == k) = false := by
      simp only [lookupS, List.find?_cons] at h
      cases hb : kv.1 == k with
      | false => rfl
      | true => rw [hb] at h; simp at h
    have hrest : lookupS rest k = none := by
      simp only [lookupS, List.find?_cons, hne] at h ⊢
      exact h
    simp only [lookupS, List.cons_append, List.find?_cons, hne]
    exact ih k v hrest

theorem lookupS_insertS_self {α : Type} (l : List (String × α)) (k : String)
    (v : α) (h : lookupS l k = none) : lookupS (insertS l k v) k = some v := by
  rw [show insertS l k v = l ++ [(k, v)] by simp [insertS, h]]
  exact lookupS_append_self l k v h

theorem popS_none {α : Type} (l : List (String × α)) (k : String)
    (h : lookupS l k = none) : popS l k = none := by
  simp [popS, h]

theorem touch_exists (g : ConversationGroup) (hwf : GroupWF g) (id : String)
    (eid : Option String) (hmem : id ∈ mainIds g) :
    ∃ g', g.touch id eid = .ok g' ∧ mainIds g' = mainIds g ∧
      g'.main_conversation_item_ids = g.main_conversation_item_ids ∧
      g'.out_of_band_cells = g.out_of_band_cells ∧ GroupWF g' := by
  have hcont : g.mainConversationContains id = true := by
    simp [ConversationGroup.mainConversationContains, hwf.idx,
      List.mem_toFinset.mpr hmem]
  have hseek := seek_eq_ok_of_mem g hwf.nodupMain id hmem
  have hlt : (mainIds g).indexOf id < g.main_conversation.length := by
    have := List.indexOf_lt_length.mpr hmem
    simpa [mainIds] using this
  obtain ⟨cell, hget⟩ : ∃ cell,
      g.main_conversation[(mainIds g).indexOf id]? = some cell :=
    ⟨_, List.getElem?_eq_getElem hlt⟩
  have htouch : g.touch id eid = .ok { g with
      main_conversation := g.main_conversation.set ((mainIds g).indexOf id)
        { cell with touched_by_event_ids :=
            cell.touched_by_event_ids ++ [eid] } } := by
    unfold ConversationGroup.touch
    rw [if_pos hcont, hseek]
    simp only [ok_bind]
    rw [hget]
  have hids : (g.main_conversation.set ((mainIds g).indexOf id)
      { cell with touched_by_event_ids :=
          cell.touched_by_event_ids ++ [eid] }).map Cell.item_id =
      mainIds g := by
    rw [List.map_set]
    refine set_getElem_self _ _ _ ?_
    rw [List.getElem?_map, hget]
    rfl
  refine ⟨_, htouch, hids, rfl, rfl, ⟨?_, ?_, hwf.oobKeys, ?_⟩⟩
  · show ((g.main_conversation.set _ _).map Cell.item_id).Nodup
    rw [hids]
    exact hwf.nodupMain
  · show g.main_conversation_item_ids =
      ((g.main_conversation.set _ _).map Cell.item_id).toFinset
    rw [hids]
    exact hwf.idx
  · intro s hs
    have hs' : s ∈ mainIds g := by
      have : s ∈ (g.main_conversation.set ((mainIds g).indexOf id)
          { cell with touched_by_event_ids :=
              cell.touched_by_event_ids ++ [eid] }).map Cell.item_id := hs
      rwa [hids] at this
    exact hwf.mainOobDisjoint s hs'

theorem insertAfter_exists (g : ConversationGroup) (hwf : GroupWF g)
    (cell : Cell) (p : String)
    (hroot : cell.item_id ≠ ROOT)
    (hoob : ∀ kv ∈ g.out_of_band_cells, kv.2.item_id ≠ cell.item_id)
    (hmain : cell.item_id ∉ mainIds g)
    (hp : p = ROOT ∨ p ∈ mainIds g) :
    ∃ g', g.insertAfter cell (some p) = .ok g' ∧ GroupWF g' ∧
      cell.item_id ∈ mainIds g' ∧
      g'.main_conversation_item_ids =
        insert cell.item_id g.main_conversation_item_ids ∧
      g'.out_of_band_cells = g.out_of_band_cells := by
  obtain ⟨i, hidx⟩ : ∃ i, g.indexAfter (some p) = .ok i := by
    by_cases hr : isRoot (some p) = true
    · exact ⟨0, by unfold ConversationGroup.indexAfter; rw [if_pos hr]⟩
    · have hpm : p ∈ mainIds g := by
        rcases hp with h | h
        · exact absurd (by simp [isRoot, h]) hr
        · exact h
      refine ⟨(mainIds g).indexOf p + 1, ?_⟩
      unfold ConversationGroup.indexAfter
      rw [if_neg hr]
      show (do
        let i ← g.seek p
        Except.ok (i + 1) : Except PyError ℕ) = _
      rw [seek_eq_ok_of_mem g hwf.nodupMain p hpm]
      rfl
  have hmem' : cell.item_id ∉ g.main_conversation_item_ids := by
    rw [hwf.idx]
    intro hm
    exact hmain (List.mem_toFinset.mp hm)
  have hfilter : (g.out_of_band_cells.filter
      fun kv => kv.2.item_id == cell.item_id) = [] :=
    List.filter_eq_nil_iff.mpr (by
      intro kv hkv
      simp [hoob kv hkv])
  have hins : g.insertAfter cell (some p) = .ok { g with
      main_conversation := g.main_conversation.insertIdx i cell,
      main_conversation_item_ids :=
        insert cell.item_id g.main_conversation_item_ids } := by
    unfold ConversationGroup.insertAfter
    rw [if_neg hroot, if_neg (by simp [hfilter]), hidx]
    simp only [ok_bind]
    rw [if_neg hmem']
  refine ⟨_, hins, applyOp_wf_insertAfter g cell (some p) _ hwf hins,
    ?_, rfl, rfl⟩
  have hle : i ≤ g.main_conversation.length :=
    (indexAfter_spec g hwf.nodupMain (some p) i hidx).1
  have hperm := List.perm_insertIdx cell g.main_conversation hle
  show cell.item_id ∈ (g.main_conversation.insertIdx i cell).map Cell.item_id
  exact ((hperm.map Cell.item_id).mem_iff).mpr (by simp)

theorem move_exists (g : ConversationGroup) (hwf : GroupWF g) (x : String)
    (q : Option String) (hx : x ∈ mainIds g)
    (hq : isRoot q = true ∨ ∃ qid, q = some qid ∧ isRoot (some qid) = false ∧
      qid ∈ mainIds g ∧ qid ≠ x) :
    ∃ g', g.move x q = .ok g' ∧
      mainIds g' = ((mainIds g).erase x).insertIdx
        (serverPosition ((mainIds g).erase x) q) x ∧
      g'.main_conversation_item_ids = g.main_conversation_item_ids ∧
      g'.out_of_band_cells = g.out_of_band_cells ∧ GroupWF g' := by
  have hseek := seek_eq_ok_of_mem g hwf.nodupMain x hx
  have hlt : (mainIds g).indexOf x < g.main_conversation.length := by
    have := List.indexOf_lt_length.mpr hx
    simpa [mainIds] using this
  obtain ⟨cell, hget⟩ : ∃ cell,
      g.main_conversation[(mainIds g).indexOf x]? = some cell :=
    ⟨_, List.getElem?_eq_getElem hlt⟩
  have hcellid : cell.item_id = x := by
    have h1 : (mainIds g)[(mainIds g).indexOf x]? = some cell.item_id := by
      show (g.main_conversation.map Cell.item_id)[(mainIds g).indexOf x]? = _
      rw [List.getElem?_map, hget]
      rfl
    have h2 : (mainIds g)[(mainIds g).indexOf x]? = some x := by
      rw [List.getElem?_eq_getElem (List.indexOf_lt_length.mpr hx)]
      exact congrArg some (List.getElem_indexOf _)
    rw [h1] at h2
    exact Option.some.inj h2
  have hids1 : (g.main_conversation.eraseIdx
      ((mainIds g).indexOf x)).map Cell.item_id = (mainIds g).erase x := by
    rw [map_eraseIdx]
    exact List.eraseIdx_indexOf_eq_erase x (mainIds g)
  have hnd1 : ((g.main_conversation.eraseIdx
      ((mainIds g).indexOf x)).map Cell.item_id).Nodup :=
    ((List.eraseIdx_sublist g.main_conversation _).map Cell.item_id).nodup
      (by simpa [mainIds] using hwf.nodupMain)
  have hidx : ConversationGroup.indexAfter { g with main_conversation := g.main_conversation.eraseIdx ((mainIds g).indexOf x) } q =
      .ok (serverPosition ((mainIds g).erase x) q) := by
    rcases hq with hr | ⟨qid, rfl, hnr, hqmem, hqne⟩
    · unfold ConversationGroup.indexAfter
      rw [if_pos hr]
      simp [serverPosition, hr]
    · have hqmem' : qid ∈ mainIds { g with main_conversation := g.main_conversation.eraseIdx ((mainIds g).indexOf x) } := by
        show qid ∈ (g.main_conversation.eraseIdx _).map Cell.item_id
        rw [hids1]
        exact (List.mem_erase_of_ne hqne).mpr hqmem
      unfold ConversationGroup.indexAfter
      rw [if_neg (by simp [hnr])]
      show (do
        let i ← ConversationGroup.seek { g with main_conversation := g.main_conversation.eraseIdx ((mainIds g).indexOf x) } qid
        Except.ok (i + 1) : Except PyError ℕ) = _
      rw [seek_eq_ok_of_mem _ (by
        show ((g.main_conversation.eraseIdx _).map Cell.item_id).Nodup
        exact hnd1) qid hqmem']
      simp only [ok_bind]
      show Except.ok _ = Except.ok _
      rw [show serverPosition ((mainIds g).erase x) (some qid) =
          ((mainIds g).erase x).indexOf qid + 1 by
        simp [serverPosition, hnr]]
      rw [show mainIds { g with main_conversation := g.main_conversation.eraseIdx ((mainIds g).indexOf x) } = (mainIds g).erase x from hids1]
  have hmove : g.move x q = .ok { g with main_conversation := (g.main_conversation.eraseIdx ((mainIds g).indexOf x)).insertIdx (serverPosition ((mainIds g).erase x) q) cell } := by
    unfold ConversationGroup.move
    rw [hseek]
    simp only [ok_bind]
    rw [hget]
    show (do
      let j ← ConversationGroup.indexAfter { g with main_conversation := g.main_conversation.eraseIdx ((mainIds g).indexOf x) } q
      Except.ok _ : Except PyError ConversationGroup) = _
    rw [hidx]
    rfl
  refine ⟨_, hmove, ?_, rfl, rfl, applyOp_wf_move g x q _ hwf hmove⟩
  show ((g.main_conversation.eraseIdx _).insertIdx _ cell).map Cell.item_id = _
  rw [map_insertIdx, hcellid, hids1]

theorem clientHandleCreate_spec (st : TrackState) (ev : CreateEvent)
    (gid : String) (hwf : GroupWF st.group)
    (hroot : resolvedItemId ev gid ≠ ROOT)
    (hpend : resolvedItemId ev gid ∉ st.pending_local)
    (hitems : lookupS st.all_items (resolvedItemId ev gid) = none)
    (hmain : resolvedItemId ev gid ∉ mainIds st.group)
    (hoob : ∀ kv ∈ st.group.out_of_band_cells,
      kv.2.item_id ≠ resolvedItemId ev gid)
    (hprev : resolvedPrev ev st.group = ROOT ∨
      resolvedPrev ev st.group ∈ mainIds st.group) :
    ∃ st1 : TrackState,
      clientHandleCreate st ev gid = .ok (st1,
        { ev with
          item := { ev.item with id := some (resolvedItemId ev gid) },
          previous_item_id := some (resolvedPrev ev st.group) }) ∧
      GroupWF st1.group ∧
      resolvedItemId ev gid ∈ mainIds st1.group ∧
      st1.pending_local = insert (resolvedItemId ev gid) st.pending_local ∧
      st1.pending_response = st.pending_response ∧
      lookupS st1.all_items (resolvedItemId ev gid) =
        some { ev.item with id := some (resolvedItemId ev gid) } := by
  obtain ⟨g1, hins, hwf1, hmem1, _, _⟩ := insertAfter_exists st.group hwf
    { item_id := resolvedItemId ev gid } (resolvedPrev ev st.group)
    hroot (fun kv hkv => hoob kv hkv) hmain hprev
  obtain ⟨g2, htouch, hids2, _, _, hwf2⟩ :=
    touch_exists g1 hwf1 (resolvedItemId ev gid) ev.event_id hmem1
  refine ⟨{ st with group := g2, all_items := insertS st.all_items (resolvedItemId ev gid) { ev.item with id := some (resolvedItemId ev gid) }, pending_local := insert (resolvedItemId ev gid) st.pending_local }, ?_, hwf2, ?_, rfl, rfl, ?_⟩
  · simp only [clientHandleCreate]
    rw [if_neg hpend, if_neg (by simp [hitems]), hins]
    simp only [ok_bind]
    rw [htouch]
    rfl
  · rw [hids2]
    exact hmem1
  · exact lookupS_insertS_self st.all_items (resolvedItemId ev gid) _ hitems

theorem handleAdded_local_spec (st : TrackState) (x : String)
    (sstatus : Option String) (score : String) (q : Option String)
    (eid : String) (stored : Item)
    (hwf : GroupWF st.group)
    (hpend : x ∈ st.pending_local)
    (hresp : lookupS st.pending_response x = none)
    (hstored : lookupS st.all_items x = some stored)
    (hstored_id : stored.id = some x)
    (hmain : x ∈ mainIds st.group)
    (hq : isRoot q = true ∨ ∃ qid, q = some qid ∧ isRoot (some qid) = false ∧
      qid ∈ mainIds st.group ∧ qid ≠ x) :
    (stored.core = score →
      ∃ st2, handleAdded st ⟨eid, ⟨some x, sstatus, score⟩, q⟩ = .ok st2 ∧
        (mainIds st2.group).count x = 1 ∧
        mainIds st2.group = ((mainIds st.group).erase x).insertIdx
          (serverPosition ((mainIds st.group).erase x) q) x) ∧
    (stored.core ≠ score →
      handleAdded st ⟨eid, ⟨some x, sstatus, score⟩, q⟩ =
        .error .assertionFailed) := by
  have hpop := popS_none st.pending_response x hresp
  have hle : serverPosition ((mainIds st.group).erase x) q ≤
      ((mainIds st.group).erase x).length := by
    rcases hq with hr | ⟨qid, rfl, hnr, hqmem, hqne⟩
    · simp [serverPosition, hr]
    · have hm : qid ∈ (mainIds st.group).erase x :=
        (List.mem_erase_of_ne hqne).mpr hqmem
      have := List.indexOf_lt_length.mpr hm
      simp only [serverPosition, hnr, Bool.false_eq_true, if_false]
      omega
  have hred : handleAdded st ⟨eid, ⟨some x, sstatus, score⟩, q⟩ =
      (if ({ stored with status := sstatus } : Item) =
          ⟨some x, sstatus, score⟩ then do
        let g1 ← st.group.move x q
        let g2 ← g1.touch x (some eid)
        Except.ok { st with group := g2, all_items := setS st.all_items x { stored with status := sstatus }, pending_local := st.pending_local.erase x }
      else .error .assertionFailed) := by
    simp only [handleAdded, hpop, hstored, hpend, if_true]
  constructor
  · intro hcore
    have heq : ({ stored with status := sstatus } : Item) =
        ⟨some x, sstatus, score⟩ := by
      have hparts : stored.id = some x ∧ stored.core = score :=
        ⟨hstored_id, hcore⟩
      obtain ⟨a, b, c⟩ := stored
      simp only [Item.mk.injEq]
      exact ⟨hparts.1, trivial, hparts.2⟩
    rw [hred, if_pos heq]
    obtain ⟨g2, hmove, hids2, _, _, hwf2⟩ :=
      move_exists st.group hwf x q hmain hq
    rw [hmove]
    simp only [ok_bind]
    have hxmem2 : x ∈ mainIds g2 := by
      rw [hids2]
      exact ((List.perm_insertIdx x _ hle).mem_iff).mpr (by simp)
    obtain ⟨g3, htouch, hids3, _, _, hwf3⟩ :=
      touch_exists g2 hwf2 x (some eid) hxmem2
    rw [htouch]
    simp only [ok_bind]
    refine ⟨_, rfl, ?_, ?_⟩
    · show (mainIds g3).count x = 1
      rw [hids3, hids2]
      have hperm := List.perm_insertIdx x ((mainIds st.group).erase x) hle
      rw [hperm.count_eq x, List.count_cons_self, List.count_erase_self,
        List.count_eq_one_of_mem hwf.nodupMain hmain]
    · show mainIds g3 = _
      rw [hids3, hids2]
  · intro hcore
    have hne : ¬ ({ stored with status := sstatus } : Item) =
        ⟨some x, sstatus, score⟩ := by
      intro heq
      exact hcore (congrArg Item.core heq)
    rw [hred, if_neg hne]

/-- C2: speculative-insert reconciliation. For every outbound
`conversation.item.create` event, `client_event_handler` plus
`Impatience.handle` rewrite it so that a missing (or empty) item id is
replaced by the generated id and a missing `previous_item_id` defaults to the
current last item id of the main sequence, insert the cell speculatively into
the main sequence, and return the rewritten event; when a
`conversation.item.added` later arrives for that locally-pending id, the
engine accepts a server item that equals the stored local item up to the
`status` field and moves the cell to the server-specified position — the id
then occurs exactly once in the main sequence, at that position — while any
server item differing beyond `status` raises `AssertionError`. -/
theorem speculative_insert_reconciliation (st : TrackState) (ev : CreateEvent)
    (gid : String) (hwf : GroupWF st.group)
    (hroot : resolvedItemId ev gid ≠ ROOT)
    (hpend : resolvedItemId ev gid ∉ st.pending_local)
    (hitems : lookupS st.all_items (resolvedItemId ev gid) = none)
    (hmain : resolvedItemId ev gid ∉ mainIds st.group)
    (hoob : ∀ kv ∈ st.group.out_of_band_cells,
      kv.2.item_id ≠ resolvedItemId ev gid)
    (hprev : resolvedPrev ev st.group = ROOT ∨
      resolvedPrev ev st.group ∈ mainIds st.group)
    (hresp : lookupS st.pending_response (resolvedItemId ev gid) = none) :
    ∃ st1 : TrackState,
      clientHandleCreate st ev gid = .ok (st1,
        { ev with
          item := { ev.item with id := some (resolvedItemId ev gid) },
          previous_item_id := some (resolvedPrev ev st.group) }) ∧
      resolvedItemId ev gid ∈ mainIds st1.group ∧
      ∀ (sstatus : Option String) (q : Option String) (eid : String),
        (isRoot q = true ∨ ∃ qid, q = some qid ∧ isRoot (some qid) = false ∧
          qid ∈ mainIds st1.group ∧ qid ≠ resolvedItemId ev gid) →
        (∃ st2, handleAdded st1
            ⟨eid, ⟨some (resolvedItemId ev gid), sstatus, ev.item.core⟩, q⟩ =
              .ok st2 ∧
          (mainIds st2.group).count (resolvedItemId ev gid) = 1 ∧
          mainIds st2.group =
            ((mainIds st1.group).erase (resolvedItemId ev gid)).insertIdx
              (serverPosition
                ((mainIds st1.group).erase (resolvedItemId ev gid)) q)
              (resolvedItemId ev gid)) ∧
        ∀ (sstat2 : Option String) (score : String), score ≠ ev.item.core →
          handleAdded st1
            ⟨eid, ⟨some (resolvedItemId ev gid), sstat2, score⟩, q⟩ =
              .error .assertionFailed := by
  obtain ⟨st1, hcc, hwf1, hmem1, hpl1, hpr1, hlook1⟩ :=
    clientHandleCreate_spec st ev gid hwf hroot hpend hitems hmain hoob hprev
  refine ⟨st1, hcc, hmem1, ?_⟩
  intro sstatus q eid hq
  have hresp1 : lookupS st1.pending_response (resolvedItemId ev gid) = none := by
    rw [hpr1]; exact hresp
  have hpend1 : resolvedItemId ev gid ∈ st1.pending_local := by
    rw [hpl1]; exact Finset.mem_insert_self _ _
  constructor
  · exact (handleAdded_local_spec st1 (resolvedItemId ev gid) sstatus
      ev.item.core q eid { ev.item with id := some (resolvedItemId ev gid) }
      hwf1 hpend1 hresp1 hlook1 rfl hmem1 hq).1 rfl
  · intro sstat2 score hne
    exact (handleAdded_local_spec st1 (resolvedItemId ev gid) sstat2
      score q eid { ev.item with id := some (resolvedItemId ev gid) }
      hwf1 hpend1 hresp1 hlook1 rfl hmem1 hq).2
      (fun hh => hne hh.symm)

theorem speculative_insert_reconciliation_witness :
    ∃ st1 : TrackState,
      clientHandleCreate c2St c2Ev "cs-1" = .ok (st1,
        { c2Ev with
          item := { c2Ev.item with id := some (resolvedItemId c2Ev "cs-1") },
          previous_item_id := some (resolvedPrev c2Ev c2St.group) }) ∧
      resolvedItemId c2Ev "cs-1" ∈ mainIds st1.group ∧
      ∀ (sstatus : Option String) (q : Option String) (eid : String),
        (isRoot q = true ∨ ∃ qid, q = some qid ∧ isRoot (some qid) = false ∧
          qid ∈ mainIds st1.group ∧ qid ≠ resolvedItemId c2Ev "cs-1") →
        (∃ st2, handleAdded st1
            ⟨eid, ⟨some (resolvedItemId c2Ev "cs-1"), sstatus,
              c2Ev.item.core⟩, q⟩ = .ok st2 ∧
          (mainIds st2.group).count (resolvedItemId c2Ev "cs-1") = 1 ∧
          mainIds st2.group =
            ((mainIds st1.group).erase (resolvedItemId c2Ev "cs-1")).insertIdx
              (serverPosition
                ((mainIds st1.group).erase (resolvedItemId c2Ev "cs-1")) q)
              (resolvedItemId c2Ev "cs-1")) ∧
        ∀ (sstat2 : Option String) (score : String), score ≠ c2Ev.item.core →
          handleAdded st1
            ⟨eid, ⟨some (resolvedItemId c2Ev "cs-1"), sstat2, score⟩, q⟩ =
              .error .assertionFailed :=
  speculative_insert_reconciliation c2St c2Ev "cs-1" groupWF_init
    (by decide) (by decide) (by decide) (by decide) (by decide) (by decide)
    (by decide)

end RealtimeUtils
